import Mathlib

/-!
Verification development for the textile bill scanning core
(image-quality analysis, regex-based field extraction, per-field
confidence estimation, and multi-pass OCR merge).

The JavaScript source is embedded shallowly:

* JavaScript numbers are modelled as exact unnormalised fractions
  (`Frac`, an integer numerator over a positive natural denominator);
  every arithmetic operation of the source maps to the corresponding
  exact rational operation, and `Frac.toRat` bridges to `ℚ` in theorem
  statements.  `NaN` results (0/0 divisions) are modelled as `none` of
  an `Option`; JavaScript comparisons with `NaN` are `false`, which the
  embedding reproduces at each use site.
* Strings are Lean `String`/`List Char`.  The regular expressions of the
  source are hand-compiled into explicit backtracking matchers that
  reproduce the JavaScript engine's leftmost-match, ordered-alternation
  and greedy/lazy quantifier behaviour for the concrete patterns used.
  The `\s` class is modelled by the common whitespace characters; `/i`
  matching uses ASCII lowercasing, which covers the character classes
  appearing in the patterns.
* JavaScript object key enumeration (`Object.keys`) is modelled exactly:
  canonical array-index keys first in ascending numeric order, then the
  remaining string keys in insertion order.
-/

/-- Exact unnormalised fraction: value `num / den`.  All constructors in
this development keep `den` positive. -/
structure Frac where
  num : ℤ
  den : ℕ
deriving DecidableEq

/-- Embed a natural number. -/
def Frac.ofNat (n : ℕ) : Frac := ⟨n, 1⟩

/-- Addition (exact model of JS `+` on numbers). -/
def Frac.add (a b : Frac) : Frac := ⟨a.num * b.den + b.num * a.den, a.den * b.den⟩

/-- Subtraction. -/
def Frac.sub (a b : Frac) : Frac := ⟨a.num * b.den - b.num * a.den, a.den * b.den⟩

/-- Multiplication. -/
def Frac.mul (a b : Frac) : Frac := ⟨a.num * b.num, a.den * b.den⟩

/-- Division by a natural number (the only divisions the source performs
are by positive integer counts or constants; a zero divisor would be a
JS `NaN`/`Infinity`, and every use site guards against it). -/
def Frac.divNat (a : Frac) (n : ℕ) : Frac := ⟨a.num, a.den * n⟩

/-- Absolute value (JS `Math.abs`). -/
def Frac.abs (a : Frac) : Frac := ⟨(a.num.natAbs : ℤ), a.den⟩

/-- Boolean `≤` by cross multiplication (valid for positive denominators). -/
def Frac.ble (a b : Frac) : Bool := decide (a.num * (b.den : ℤ) ≤ b.num * (a.den : ℤ))

/-- Boolean `<` by cross multiplication (valid for positive denominators). -/
def Frac.blt (a b : Frac) : Bool := decide (a.num * (b.den : ℤ) < b.num * (a.den : ℤ))

/-- Value equality test (JS `===` on numbers). -/
def Frac.beqv (a b : Frac) : Bool := decide (a.num * (b.den : ℤ) = b.num * (a.den : ℤ))

/-- JS `Math.min` on numbers. -/
def Frac.minF (a b : Frac) : Frac := if Frac.blt b a then b else a

/-- JS `Math.max` on numbers. -/
def Frac.maxF (a b : Frac) : Frac := if Frac.blt a b then b else a

/-- JS `Math.floor` (for a positive denominator, Euclidean division by a
positive divisor is floor division). -/
def Frac.floorJs (a : Frac) : ℤ := a.num / (a.den : ℤ)

/-- The value of a `Frac` as a rational number. -/
def Frac.toRat (a : Frac) : ℚ := (a.num : ℚ) / (a.den : ℚ)

/-- Sum of a list of fractions, as the source's `reduce((s, x) => s + x, 0)`. -/
def Frac.sumList (l : List Frac) : Frac := l.foldl Frac.add (Frac.ofNat 0)

/-- JS whitespace class `\s` (the characters relevant to this code base;
`String.prototype.trim` uses the same set). -/
def isWsChar (c : Char) : Bool :=
  c == ' ' || c == '\t' || c == '\n' || c == '\r' || c == '\x0b' || c == '\x0c' ||
  c == '\u00A0' || c == '\uFEFF'

/-- Decimal digit `\d`. -/
def isDigitChar (c : Char) : Bool := decide (48 ≤ c.toNat) && decide (c.toNat ≤ 57)

/-- ASCII letter (what `[A-Z]` matches under the `/i` flag). -/
def isAsciiLetter (c : Char) : Bool :=
  (decide (65 ≤ c.toNat) && decide (c.toNat ≤ 90)) ||
  (decide (97 ≤ c.toNat) && decide (c.toNat ≤ 122))

/-- Class `[A-Z0-9\-]` under `/i`. -/
def isAlnumDash (c : Char) : Bool := isAsciiLetter c || isDigitChar c || c == '-'

/-- Class `[\s:]`. -/
def isWsColon (c : Char) : Bool := isWsChar c || c == ':'

/-- Class `[\s#:]`. -/
def isWsHashColon (c : Char) : Bool := isWsChar c || c == '#' || c == ':'

/-- Class `[.\s#:]`. -/
def isDotWsHashColon (c : Char) : Bool := isWsChar c || c == '#' || c == ':' || c == '.'

/-- Date separator class `[\/\-]`. -/
def isSepChar (c : Char) : Bool := c == '/' || c == '-'

/-- Class `[\d,]`. -/
def isDigitComma (c : Char) : Bool := isDigitChar c || c == ','

/-- Class `[A-Za-z\s&]` (the customer-name body class). -/
def isCustChar (c : Char) : Bool := isAsciiLetter c || isWsChar c || c == '&'

/-- Currency symbol class `[₹$]`. -/
def isCurrency (c : Char) : Bool := c == '₹' || c == '$'

/-- Drop leading JS whitespace. -/
def dropLead (l : List Char) : List Char := l.dropWhile isWsChar

/-- Drop trailing JS whitespace. -/
def dropTrail (l : List Char) : List Char := (l.reverse.dropWhile isWsChar).reverse

/-- `String.prototype.trim` on a character list. -/
def trimList (l : List Char) : List Char := dropTrail (dropLead l)

/-- `String.prototype.trim`. -/
def jsTrim (s : String) : String := String.mk (trimList s.data)

/-- `padStart(2, '0')`. -/
def jsPad2 (s : String) : String :=
  if 2 ≤ s.length then s else String.mk (List.replicate (2 - s.length) '0' ++ s.data)

/-- Case-insensitive consumption of a literal pattern (pattern given in
lowercase): returns the remaining suffix on success. -/
def eatCI : List Char → List Char → Option (List Char)
  | [], s => some s
  | _ :: _, [] => none
  | p :: ps, c :: cs => if p == c.toLower then eatCI ps cs else none

/-- Case-insensitive consumption of a literal `String` pattern. -/
def eatCIS (pat : String) (s : List Char) : Option (List Char) := eatCI pat.data s

/-- Does the pattern match (case-insensitively) at the head of `s`? -/
def startsCI (pat : String) (s : List Char) : Bool := (eatCIS pat s).isSome

/-- Leftmost-match search: try a position matcher at every suffix, left to
right (the scan a JS regex performs for a non-anchored pattern). -/
def firstMatch {α : Type} (f : List Char → Option α) : List Char → Option α
  | [] => f []
  | s@(_ :: rest) =>
    match f s with
    | some a => some a
    | none => firstMatch f rest

/-- First `some` in a list of ordered alternatives. -/
def firstSomeOpt {α : Type} : List (Option α) → Option α
  | [] => none
  | some a :: _ => some a
  | none :: rest => firstSomeOpt rest

/-- Exactly `n` digits from the head of `s`, with the rest. -/
def digitChunk : ℕ → List Char → Option (List Char × List Char)
  | 0, s => some ([], s)
  | _ + 1, [] => none
  | n + 1, c :: cs =>
    if isDigitChar c then (digitChunk n cs).map (fun p => (c :: p.1, p.2)) else none

/-- The date core `\d{1,2}[\/\-]\d{1,2}[\/\-]\d{2,4}` matched at the head
of `s`, with the greedy backtracking order of the JS engine (longer digit
chunks first).  Returns the matched token. -/
def dateCoreAt (s : List Char) : Option String :=
  firstSomeOpt <| [2, 1].map fun la =>
    (digitChunk la s).bind fun pa =>
      match pa.2 with
      | sep1 :: s2 =>
        if isSepChar sep1 then
          firstSomeOpt <| [2, 1].map fun lb =>
            (digitChunk lb s2).bind fun pb =>
              match pb.2 with
              | sep2 :: s4 =>
                if isSepChar sep2 then
                  firstSomeOpt <| [4, 3, 2].map fun lc =>
                    (digitChunk lc s4).map fun pc =>
                      String.mk (pa.1 ++ sep1 :: pb.1 ++ sep2 :: pc.1)
                else none
              | [] => none
        else none
      | [] => none

/-- The date core of the third pattern, `\d{4}[\/\-]\d{1,2}[\/\-]\d{1,2}`. -/
def date4At (s : List Char) : Option String :=
  (digitChunk 4 s).bind fun pa =>
    match pa.2 with
    | sep1 :: s2 =>
      if isSepChar sep1 then
        firstSomeOpt <| [2, 1].map fun lb =>
          (digitChunk lb s2).bind fun pb =>
            match pb.2 with
            | sep2 :: s4 =>
              if isSepChar sep2 then
                firstSomeOpt <| [2, 1].map fun lc =>
                  (digitChunk lc s4).map fun pc =>
                    String.mk (pa.1 ++ sep1 :: pb.1 ++ sep2 :: pc.1)
              else none
            | [] => none
      else none
    | [] => none

/-- After the label of date pattern 1: `[\s:]*` then the date core (the
`[\s:]` class is disjoint from `\d`, so the star is deterministic). -/
def dateLabelRest (s : List Char) : Option String := dateCoreAt (s.dropWhile isWsColon)

/-- Date pattern 1, `(?:Date|Dated?)[\s:]*(<core>)/i`, at one position.
The engine tries alternative `Date` first, then (via `Dated?`) `Dated`. -/
def dateP1At (s : List Char) : Option String :=
  match (eatCIS "date" s).bind dateLabelRest with
  | some tok => some tok
  | none => (eatCIS "dated" s).bind dateLabelRest

/-- JS `split(/[\/\-]/)` helper (keeps empty pieces, like JS `split`). -/
def splitSepsAux (cur : List Char) : List Char → List String
  | [] => [String.mk cur.reverse]
  | c :: cs =>
    if isSepChar c then String.mk cur.reverse :: splitSepsAux [] cs
    else splitSepsAux (c :: cur) cs

/-- JS `dateStr.split(/[\/\-]/)`. -/
def splitSeps (s : String) : List String := splitSepsAux [] s.data

/-- The date normalisation of `extractBillData` for a 3-part split. -/
def formatDateParts : List String → String
  | [p0, p1, p2] =>
    if p0.length == 4 then
      -- YYYY-MM-DD format
      p0 ++ "-" ++ jsPad2 p1 ++ "-" ++ jsPad2 p2
    else
      -- DD-MM-YYYY or DD/MM/YYYY
      (if p2.length == 2 then "20" ++ p2 else p2) ++ "-" ++ jsPad2 p1 ++ "-" ++ jsPad2 p0
  | _ => ""

/-- The token matched by the date pattern cascade (first pattern that
matches anywhere in the text wins). -/
def matchedDateToken (text : String) : Option String :=
  firstSomeOpt
    [firstMatch dateP1At text.data, firstMatch dateCoreAt text.data,
     firstMatch date4At text.data]

/-- The date-extraction loop of `extractBillData`: each matched token is
split on `/` or `-`; a 3-part split is normalised and stops the loop,
otherwise the next pattern is tried. -/
def dateLoop : List (Option String) → String
  | [] => ""
  | none :: rest => dateLoop rest
  | some tok :: rest =>
    let parts := splitSeps tok
    if parts.length == 3 then formatDateParts parts else dateLoop rest

/-- The `date` field of `extractBillData`. -/
def extractDate (text : String) : String :=
  dateLoop
    [firstMatch dateP1At text.data, firstMatch dateCoreAt text.data,
     firstMatch date4At text.data]

/-- After a bill-number label: `[\s#:]*No[.\s#:]*([A-Z0-9\-]+)` (the star
classes are disjoint from what follows them, so they are deterministic). -/
def billNoP1Rest (s : List Char) : Option String :=
  (eatCIS "no" (s.dropWhile isWsHashColon)).bind fun s3 =>
    let cap := (s3.dropWhile isDotWsHashColon).takeWhile isAlnumDash
    if cap.isEmpty then none else some (String.mk cap)

/-- Bill-number pattern 1, `(?:Invoice|Bill|INV)[\s#:]*No[.\s#:]*([A-Z0-9\-]+)/i`,
at one position (alternatives in source order, with backtracking). -/
def billNoP1At (s : List Char) : Option String :=
  match (eatCIS "invoice" s).bind billNoP1Rest with
  | some cap => some cap
  | none =>
    match (eatCIS "bill" s).bind billNoP1Rest with
    | some cap => some cap
    | none => (eatCIS "inv" s).bind billNoP1Rest

/-- After the label of bill-number pattern 2: `[\s#:]*([A-Z0-9\-]{4,})`. -/
def billNoP2Rest (s : List Char) : Option String :=
  let cap := (s.dropWhile isWsHashColon).takeWhile isAlnumDash
  if 4 ≤ cap.length then some (String.mk cap) else none

/-- Bill-number pattern 2, `(?:Invoice|Bill)[\s#:]*([A-Z0-9\-]{4,})/i`. -/
def billNoP2At (s : List Char) : Option String :=
  match (eatCIS "invoice" s).bind billNoP2Rest with
  | some cap => some cap
  | none => (eatCIS "bill" s).bind billNoP2Rest

/-- Bill-number pattern 3, `No[.\s#:]*([A-Z0-9\-]+)/i`. -/
def billNoP3At (s : List Char) : Option String :=
  (eatCIS "no" s).bind fun s1 =>
    let cap := (s1.dropWhile isDotWsHashColon).takeWhile isAlnumDash
    if cap.isEmpty then none else some (String.mk cap)

/-- The `billNo` field of `extractBillData`: first pattern with a
non-empty capture wins; the capture is trimmed. -/
def extractBillNo (text : String) : String :=
  match firstMatch billNoP1At text.data with
  | some cap => jsTrim cap
  | none =>
    match firstMatch billNoP2At text.data with
    | some cap => jsTrim cap
    | none =>
      match firstMatch billNoP3At text.data with
      | some cap => jsTrim cap
      | none => ""

/-- Terminator alternation `(?:\n|GST|Date|Invoice|Total|$)` of the
customer patterns, tested at a suffix. -/
def custTermAt (s : List Char) : Bool :=
  s.isEmpty ||
  (match s with
   | c :: _ => c == '\n'
   | [] => false) ||
  startsCI "gst" s || startsCI "date" s || startsCI "invoice" s || startsCI "total" s

/-- Lazy extension of the customer capture `[A-Za-z\s&]+?`: after each
consumed character the terminator is tried first; a character outside the
class with no terminator fails the position (as the JS engine does). -/
def custGo : List Char → Option (List Char)
  | [] => some []
  | c :: rest =>
    if custTermAt (c :: rest) then some []
    else if isCustChar c then (custGo rest).map (fun e => c :: e)
    else none

/-- After a customer label: `[\s:]+([A-Z][A-Za-z\s&]+?)(?:\n|GST|Date|Invoice|Total|$)`.
`[\s:]+` is deterministic (its class is disjoint from `[A-Z]`); the
capture needs one `[A-Z]` character (under `/i`: any ASCII letter) plus at
least one class character before the lazy loop. -/
def custCapAt (s : List Char) : Option (List Char) :=
  if (s.takeWhile isWsColon).isEmpty then none
  else
    match s.dropWhile isWsColon with
    | c0 :: s3 =>
      if isAsciiLetter c0 then
        match s3 with
        | c1 :: s4 => if isCustChar c1 then (custGo s4).map (fun e => c0 :: c1 :: e) else none
        | [] => none
      else none
    | [] => none

/-- Customer pattern 1, `(?:To|Customer|Bill\s*To)[\s:]+(...)/i`, at one
position (the three label alternatives have distinct initial letters, so
no backtracking between them is possible). -/
def custP1At (s : List Char) : Option (List Char) :=
  match (eatCIS "to" s).bind custCapAt with
  | some cap => some cap
  | none =>
    match (eatCIS "customer" s).bind custCapAt with
    | some cap => some cap
    | none =>
      ((eatCIS "bill" s).bind fun s1 => eatCIS "to" (s1.dropWhile isWsChar)).bind custCapAt

/-- Customer pattern 2, `(?:Customer\s*Name)[\s:]+(...)/i`. -/
def custP2At (s : List Char) : Option (List Char) :=
  ((eatCIS "customer" s).bind fun s1 => eatCIS "name" (s1.dropWhile isWsChar)).bind custCapAt

/-- Post-processing of the customer capture:
`match[1].trim().split('\n')[0].substring(0, 100)`. -/
def custProcess (cap : List Char) : String :=
  String.mk (((trimList cap).takeWhile (fun c => c != '\n')).take 100)

/-- The `customer` field of `extractBillData`. -/
def extractCustomer (text : String) : String :=
  match firstMatch custP1At text.data with
  | some cap => custProcess cap
  | none =>
    match firstMatch custP2At text.data with
    | some cap => custProcess cap
    | none => ""

/-- The numeric tail `[\s:]*[₹$]?[\s]*([\d,]+\.?\d*)` of the GST and total
patterns, after a label.  Every star's class is disjoint from what can
follow it, so the match is deterministic; the capture is returned. -/
def numCapAt (s : List Char) : Option (List Char) :=
  let s2 := s.dropWhile isWsColon
  let s3 :=
    match s2 with
    | c :: r => if isCurrency c then r else s2
    | [] => s2
  let s4 := s3.dropWhile isWsChar
  let run := s4.takeWhile isDigitComma
  if run.isEmpty then none
  else
    some (run ++
      (match s4.dropWhile isDigitComma with
       | '.' :: r => '.' :: r.takeWhile isDigitChar
       | _ => []))

/-- GST pattern 1, `(?:GST|Tax)[\s:]*[₹$]?[\s]*([\d,]+\.?\d*)/i`. -/
def gstP1At (s : List Char) : Option (List Char) :=
  match (eatCIS "gst" s).bind numCapAt with
  | some cap => some cap
  | none => (eatCIS "tax" s).bind numCapAt

/-- GST pattern 2, `(?:GST\s*Amount)[\s:]*[₹$]?[\s]*([\d,]+\.?\d*)/i`. -/
def gstP2At (s : List Char) : Option (List Char) :=
  ((eatCIS "gst" s).bind fun s1 => eatCIS "amount" (s1.dropWhile isWsChar)).bind numCapAt

/-- JS `capture.replace(/,/g, '')` on a captured numeric list. -/
def stripCommas (cap : List Char) : String := String.mk (cap.filter (fun c => c != ','))

/-- The `gst` field of `extractBillData`. -/
def extractGst (text : String) : String :=
  match firstMatch gstP1At text.data with
  | some cap => stripCommas cap
  | none =>
    match firstMatch gstP2At text.data with
    | some cap => stripCommas cap
    | none => ""

/-- Total pattern 1,
`(?:Total|Grand\s*Total|Amount\s*Payable)[\s:]*[₹$]?[\s]*([\d,]+\.?\d*)/i`
(the label alternatives have distinct initial letters). -/
def totalP1At (s : List Char) : Option (List Char) :=
  match (eatCIS "total" s).bind numCapAt with
  | some cap => some cap
  | none =>
    match ((eatCIS "grand" s).bind fun s1 => eatCIS "total" (s1.dropWhile isWsChar)).bind numCapAt with
    | some cap => some cap
    | none =>
      ((eatCIS "amount" s).bind fun s1 => eatCIS "payable" (s1.dropWhile isWsChar)).bind numCapAt

/-- Total pattern 2, `(?:Total\s*Amount)[\s:]*[₹$]?[\s]*([\d,]+\.?\d*)/i`. -/
def totalP2At (s : List Char) : Option (List Char) :=
  ((eatCIS "total" s).bind fun s1 => eatCIS "amount" (s1.dropWhile isWsChar)).bind numCapAt

/-- The capture of the first matching labelled total pattern, if any. -/
def totalLabelCapture (text : String) : Option (List Char) :=
  match firstMatch totalP1At text.data with
  | some cap => some cap
  | none => firstMatch totalP2At text.data

/-- One match of the fallback scan pattern `/[₹$]?[\s]*([\d,]+\.?\d*)/g`
at the head of `s`: the full matched token together with the rest of the
input (the engine continues after the match). -/
def numTokAt (s : List Char) : Option (List Char × List Char) :=
  let cur :=
    match s with
    | c :: _ => if isCurrency c then [c] else []
    | [] => []
  let s1 := s.drop cur.length
  let ws := s1.takeWhile isWsChar
  let s2 := s1.dropWhile isWsChar
  let run := s2.takeWhile isDigitComma
  if run.isEmpty then none
  else
    let s3 := s2.dropWhile isDigitComma
    match s3 with
    | '.' :: r => some (cur ++ ws ++ run ++ '.' :: r.takeWhile isDigitChar, r.dropWhile isDigitChar)
    | _ => some (cur ++ ws ++ run, s3)

/-- The repeated scan of `text.match(/.../g)`: fuelled so that the
recursion is structural; the fuel `length + 1` always suffices because
every match consumes at least one character. -/
def gMatches : ℕ → List Char → List (List Char)
  | 0, _ => []
  | _ + 1, [] => []
  | fuel + 1, s@(_ :: rest) =>
    match numTokAt s with
    | some (tok, r) => tok :: gMatches fuel r
    | none => gMatches fuel rest

/-- All matches of the fallback number pattern in a text. -/
def globalNumMatches (l : List Char) : List (List Char) := gMatches (l.length + 1) l

/-- A nonnegative decimal number as mantissa and scale: value
`mant / 10 ^ scale`.  This represents the JS float exactly for the
numeric tokens the fallback parses. -/
structure ScaledNum where
  mant : ℕ
  scale : ℕ
deriving DecidableEq

/-- Digits to a natural number. -/
def digitsToNat (l : List Char) : ℕ := l.foldl (fun n c => n * 10 + (c.toNat - 48)) 0

/-- JS `parseFloat` restricted to the shapes produced by the fallback
scan after symbol stripping: optional leading whitespace, then digits
with at most one decimal point.  `none` models `NaN`. -/
def parseFloatTok (l : List Char) : Option ScaledNum :=
  let l1 := l.dropWhile isWsChar
  let ds := l1.takeWhile isDigitChar
  match l1.dropWhile isDigitChar with
  | '.' :: r =>
    let fs := r.takeWhile isDigitChar
    if ds.isEmpty && fs.isEmpty then none
    else some ⟨digitsToNat (ds ++ fs), fs.length⟩
  | _ => if ds.isEmpty then none else some ⟨digitsToNat ds, 0⟩

/-- Value comparison of scaled numbers (`a < b`). -/
def ScaledNum.sblt (a b : ScaledNum) : Bool := decide (a.mant * 10 ^ b.scale < b.mant * 10 ^ a.scale)

/-- JS `Math.max(...values)` over a non-empty list, by left fold. -/
def maxScaled (x : ScaledNum) (xs : List ScaledNum) : ScaledNum :=
  xs.foldl (fun acc v => if ScaledNum.sblt acc v then v else acc) x

/-- Reversed decimal digits (least significant first) of a natural
number, fuelled for structural recursion; `fuel = n + 1` suffices. -/
def natDigitsRev : ℕ → ℕ → List Char
  | 0, _ => []
  | fuel + 1, n =>
    if n < 10 then [Char.ofNat (48 + n)]
    else Char.ofNat (48 + n % 10) :: natDigitsRev fuel (n / 10)

/-- Decimal string of a natural number (as JS `Number.prototype.toString`
prints a nonnegative integer). -/
def natToString (n : ℕ) : String := String.mk (natDigitsRev (n + 1) n).reverse

/-- Remove trailing zero fractional digits: JS prints the shortest
decimal form, so `1200.50` is the number printed `"1200.5"`. -/
def normScaled : ℕ → ℕ → ℕ × ℕ
  | m, 0 => (m, 0)
  | m, k + 1 => if m % 10 == 0 then normScaled (m / 10) k else (m, k + 1)

/-- JS `Number.prototype.toString` for a nonnegative terminating decimal. -/
def scaledToString (a : ScaledNum) : String :=
  let p := normScaled a.mant a.scale
  if p.2 == 0 then natToString p.1
  else
    let ds := natDigitsRev (p.1 + 1) p.1
    let frac := ds.take p.2 ++ List.replicate (p.2 - ds.length) '0'
    let int := ds.drop p.2
    (if int.isEmpty then "0" else String.mk int.reverse) ++ "." ++ String.mk frac.reverse

/-- JS `n.replace(/[₹$,]/g, '')` on a fallback token. -/
def stripCurrencyCommas (l : List Char) : List Char :=
  l.filter (fun c => !(c == '₹' || c == '$' || c == ','))

/-- The largest-number fallback of the total extraction: parse every
numeric-looking token, drop `NaN`s, and print the maximum; `none` when no
token parses. -/
def fallbackTotal (text : String) : Option String :=
  let values := (globalNumMatches text.data).filterMap (fun n => parseFloatTok (stripCurrencyCommas n))
  match values with
  | [] => none
  | v :: vs => some (scaledToString (maxScaled v vs))

/-- The `total` field of `extractBillData`: labelled capture with commas
stripped; if that leaves an empty (falsy) string, the largest numeric
token in the text; empty when neither produces anything. -/
def extractTotal (text : String) : String :=
  let labelled :=
    match totalLabelCapture text with
    | some cap => stripCommas cap
    | none => ""
  if labelled != "" then labelled
  else
    match fallbackTotal text with
    | some s => s
    | none => labelled

/-- The five extracted bill fields. -/
structure BillData where
  billNo : String
  date : String
  customer : String
  gst : String
  total : String
deriving DecidableEq

/-- `DataExtractionModule.extractBillData`. -/
def extractBillData (text : String) : BillData :=
  ⟨extractBillNo text, extractDate text, extractCustomer text, extractGst text,
   extractTotal text⟩

/-- Field names of `BillData`. -/
inductive FieldName
  | billNo
  | date
  | customer
  | gst
  | total
deriving DecidableEq

/-- JS property access `billData[fieldName]`. -/
def BillData.get (b : BillData) : FieldName → String
  | .billNo => b.billNo
  | .date => b.date
  | .customer => b.customer
  | .gst => b.gst
  | .total => b.total

/-- The truthiness-plus-trim filter `v && v.trim() !== ''` used by the
merge code on field values. -/
def jsTruthyNonBlank (v : String) : Bool := v != "" && jsTrim v != ""

/-- Is a string a canonical array-index property key (the keys that JS
object enumeration lists first, in ascending numeric order)?  Canonical
means it round-trips through its numeric value and is below `2^32 - 1`. -/
def isArrayIndexKey (s : String) : Bool :=
  !s.data.isEmpty && s.data.all isDigitChar &&
    natToString (digitsToNat s.data) == s && decide (digitsToNat s.data < 4294967295)

/-- Numeric value of an array-index key. -/
def keyVal (s : String) : ℕ := digitsToNat s.data

/-- Insertion into an ascending-by-numeric-value list. -/
def insertAsc (x : String) : List String → List String
  | [] => [x]
  | y :: ys => if keyVal x < keyVal y then x :: y :: ys else y :: insertAsc x ys

/-- Ascending numeric sort of array-index keys. -/
def sortAsc : List String → List String
  | [] => []
  | x :: xs => insertAsc x (sortAsc xs)

/-- JS `Object.keys` enumeration order for string keys inserted in the
given order: canonical array-index keys first, ascending numerically,
then the remaining keys in insertion order. -/
def jsKeyOrder (keys : List String) : List String :=
  sortAsc (keys.filter isArrayIndexKey) ++ keys.filter (fun k => !isArrayIndexKey k)

/-- Deduplication keeping first occurrences: the insertion order of the
keys of the `frequency` object built from the value list. -/
def firstDedupAux (seen : List String) : List String → List String
  | [] => []
  | x :: xs =>
    if seen.contains x then firstDedupAux seen xs
    else x :: firstDedupAux (x :: seen) xs

/-- Deduplication keeping first occurrences. -/
def firstDedup (l : List String) : List String := firstDedupAux [] l

/-- The most-frequent scan of `OCRModule.mergeField`: walk the enumerated
keys, replacing the candidate whenever a strictly greater frequency is
seen (`frequency[value] > maxFreq`). -/
def mergeLoop (freq : String → ℕ) : List String → ℕ × String → ℕ × String
  | [], acc => acc
  | k :: ks, acc =>
    if acc.1 < freq k then mergeLoop freq ks (freq k, k) else mergeLoop freq ks acc

/-- `OCRModule.mergeField`: most frequent non-blank value for a field
across the per-pass extractions, starting from `values[0]`. -/
def mergeField (f : FieldName) (bds : List BillData) : String :=
  let values := (bds.map (fun b => b.get f)).filter jsTruthyNonBlank
  match values with
  | [] => ""
  | v0 :: _ =>
    let keys := jsKeyOrder (firstDedup values)
    (mergeLoop (fun k => values.count k) keys (0, v0)).2

/-- One OCR word with its confidence (0–100 scale). -/
structure OCRWord where
  text : String
  confidence : Frac
deriving DecidableEq

/-- One OCR pass result. -/
structure OCRResult where
  text : String
  confidence : Frac
  words : List OCRWord

/-- Lowercasing for JS `toLowerCase()` (ASCII range). -/
def lowerList (l : List Char) : List Char := l.map Char.toLower

/-- Does `needle` occur at the head of the second list? -/
def startsWithList : List Char → List Char → Bool
  | [], _ => true
  | _ :: _, [] => false
  | a :: as, b :: bs => a == b && startsWithList as bs

/-- Substring occurrence (JS `includes`). -/
def hasSubList (needle : List Char) : List Char → Bool
  | [] => startsWithList needle []
  | s@(_ :: t) => startsWithList needle s || hasSubList needle t

/-- JS `hay.toLowerCase().includes(needle.toLowerCase())`. -/
def jsIncludesCI (hay needle : String) : Bool :=
  hasSubList (lowerList needle.data) (lowerList hay.data)

/-- The per-field confidence estimate of
`DataExtractionModule.extractBillDataWithConfidence`: 0 for a blank
value; otherwise the mean confidence (scaled to 0–1) of the OCR words
matching the value as a case-insensitive substring in either direction;
with no matching word, the overall OCR confidence scaled to 0–1 when
that is truthy, else 0.5. -/
def estimateFieldConfidence (words : List OCRWord) (ocrConf : Option Frac)
    (fieldValue : String) : Frac :=
  if fieldValue == "" || jsTrim fieldValue == "" then Frac.ofNat 0
  else
    let matching := words.filter (fun w =>
      jsIncludesCI fieldValue w.text || jsIncludesCI w.text fieldValue)
    match matching with
    | [] =>
      match ocrConf with
      | some c => if c.beqv (Frac.ofNat 0) then ⟨1, 2⟩ else c.divNat 100
      | none => ⟨1, 2⟩
    | _ :: _ =>
      ((Frac.sumList (matching.map (fun w => w.confidence))).divNat matching.length).divNat 100

/-- `DataExtractionModule.extractBillDataWithConfidence` (pure part: the
extracted fields and the per-field confidence estimates; the call also
records each entry in the confidence store, modelled separately). -/
def extractBillDataWithConfidence (text : String) (words : List OCRWord)
    (ocrConf : Option Frac) : BillData × (FieldName → Frac) :=
  let bd := extractBillData text
  (bd, fun f => estimateFieldConfidence words ocrConf (bd.get f))

/-- A stored entry of `ConfidenceModule.fieldConfidences`. -/
structure ConfEntry where
  confidence : Frac
  value : String
  needsReview : Bool
  status : String

/-- The state of `ConfidenceModule`: a map from field names to entries. -/
def ConfState : Type := String → Option ConfEntry

/-- The initial empty store (`fieldConfidences: {}`). -/
def confEmpty : ConfState := fun _ => none

/-- JS `Math.round` (round half toward positive infinity). -/
def jsRound (x : Frac) : ℤ := Frac.floorJs (x.add ⟨1, 2⟩)

/-- `Math.round(confidence * 100) / 100`. -/
def jsRound2 (c : Frac) : Frac := ⟨jsRound (c.mul (Frac.ofNat 100)), 100⟩

/-- `ConfidenceModule.setFieldConfidence`: stores the rounded confidence,
while `needsReview` and `status` are computed from the raw input. -/
def setFieldConfidence (st : ConfState) (fieldName : String) (confidence : Frac)
    (value : String) : ConfState :=
  fun n =>
    if n == fieldName then
      some
        ⟨jsRound2 confidence, value, Frac.blt confidence ⟨7, 10⟩,
         if Frac.ble ⟨8, 10⟩ confidence then "high"
         else if Frac.ble ⟨6, 10⟩ confidence then "medium"
         else "low"⟩
    else st n

/-- What `ConfidenceModule.getFieldConfidence` returns: a stored entry,
or the default `{confidence: 0, needsReview: true, status: 'unknown'}`
(which carries no `value`). -/
structure ConfLookup where
  confidence : Frac
  needsReview : Bool
  status : String
  value : Option String

/-- `ConfidenceModule.getFieldConfidence`. -/
def getFieldConfidence (st : ConfState) (fieldName : String) : ConfLookup :=
  match st fieldName with
  | some e => ⟨e.confidence, e.needsReview, e.status, some e.value⟩
  | none => ⟨Frac.ofNat 0, true, "unknown", none⟩

/-- `ConfidenceModule.reset` (`this.fieldConfidences = {}`). -/
def confReset (_ : ConfState) : ConfState := fun _ => none

/-- The result of `OCRModule.mergeScanResults`. -/
structure MergeOut where
  billData : BillData
  fieldConf : FieldName → Frac
  overallConfidence : Frac

/-- `OCRModule.mergeScanResults`: extract per pass, merge each field by
majority vote, and score each field by the share of agreeing passes
among the passes with a non-blank value (0 when there are none); the
overall confidence is the mean of the five field confidences. -/
def mergeScanResults (results : List OCRResult) : MergeOut :=
  let bds := results.map (fun r => (extractBillDataWithConfidence r.text r.words none).1)
  let merged : BillData :=
    ⟨mergeField .billNo bds, mergeField .date bds, mergeField .customer bds,
     mergeField .gst bds, mergeField .total bds⟩
  let fc : FieldName → Frac := fun f =>
    let values := (bds.map (fun b => b.get f)).filter jsTruthyNonBlank
    let consistentCount := (values.filter (fun v => v == merged.get f)).length
    if values.length == 0 then Frac.ofNat 0
    else (Frac.ofNat consistentCount).divNat values.length
  let overall :=
    (Frac.sumList [fc .billNo, fc .date, fc .customer, fc .gst, fc .total]).divNat 5
  ⟨merged, fc, overall⟩

/-- `ImageQualityModule.checkResolution`. -/
structure ResolutionReport where
  width : ℕ
  height : ℕ
  totalPixels : ℕ
  adequate : Bool
  recommended : Bool

/-- `ImageQualityModule.checkResolution`. -/
def checkResolution (width height : ℕ) : ResolutionReport :=
  ⟨width, height, width * height, decide (500 * 500 ≤ width * height),
   decide (1000 * 1000 ≤ width * height)⟩

/-- Grayscale `(data[i] + data[i+1] + data[i+2]) / 3` of the RGBA buffer
(out-of-range reads default to 0; every read the source performs on a
well-formed buffer is in range). -/
def grayAt (data : List ℕ) (i : ℕ) : Frac :=
  (Frac.ofNat (data.getD i 0 + data.getD (i + 1) 0 + data.getD (i + 2) 0)).divNat 3

/-- Row indices of the blur sample: `for (y = 1; y < height - 1; y += 2)`. -/
def blurYs (h : ℕ) : List ℕ := (List.range h).filter (fun y => y % 2 == 1 && y + 1 < h)

/-- Column indices of the blur sample: `for (x = 1; x < width - 1; x += 2)`. -/
def blurXs (w : ℕ) : List ℕ := (List.range w).filter (fun x => x % 2 == 1 && x + 1 < w)

/-- The approximate Laplacian magnitude
`|gray(x,y)*2 − gray(x+1,y) − gray(x,y+1)|` at a sample point. -/
def lapAt (w : ℕ) (data : List ℕ) (y x : ℕ) : Frac :=
  let g := grayAt data ((y * w + x) * 4)
  let gr := grayAt data ((y * w + x) * 4 + 4)
  let gb := grayAt data (((y + 1) * w + x) * 4)
  (((g.mul (Frac.ofNat 2)).sub gr).sub gb).abs

/-- All Laplacian samples of `detectBlur`, in loop order. -/
def blurLaps (w h : ℕ) (data : List ℕ) : List Frac :=
  ((blurYs h).map (fun y => (blurXs w).map (fun x => lapAt w data y x))).flatten

/-- The result of `ImageQualityModule.detectBlur`.  `variance = none`
models the JS `NaN` arising from `0/0` when the sample is empty; the
comparisons against the threshold are then both false. -/
structure BlurReport where
  variance : Option Frac
  isBlurry : Bool
  adequate : Bool

/-- `ImageQualityModule.detectBlur`. -/
def detectBlur (w h : ℕ) (data : List ℕ) : BlurReport :=
  let laps := blurLaps w h data
  if laps.isEmpty then ⟨none, false, false⟩
  else
    let mean := (Frac.sumList laps).divNat laps.length
    let variance :=
      (Frac.sumList (laps.map (fun v => (v.sub mean).mul (v.sub mean)))).divNat laps.length
    ⟨some variance, Frac.blt variance (Frac.ofNat 100), Frac.ble (Frac.ofNat 100) variance⟩

/-- Sample indices `for (i = 0; i < data.length; i += 16)` shared by the
brightness and contrast checks. -/
def sampleIdxs (len : ℕ) : List ℕ := (List.range len).filter (fun i => i % 16 == 0)

/-- The result of `ImageQualityModule.checkBrightness`; `average = none`
models the `NaN` of an empty sample (both threshold comparisons false,
so `adequate = false` and `issue = null`). -/
structure BrightnessReport where
  average : Option Frac
  adequate : Bool
  issue : Option String

/-- `ImageQualityModule.checkBrightness`. -/
def checkBrightness (data : List ℕ) : BrightnessReport :=
  let idxs := sampleIdxs data.length
  if idxs.isEmpty then ⟨none, false, none⟩
  else
    let avg := (Frac.sumList (idxs.map (fun i => grayAt data i))).divNat idxs.length
    ⟨some avg, Frac.ble (Frac.ofNat 50) avg && Frac.ble avg (Frac.ofNat 200),
     if Frac.blt avg (Frac.ofNat 50) then some "too dark"
     else if Frac.blt (Frac.ofNat 200) avg then some "too bright"
     else none⟩

/-- The result of `ImageQualityModule.checkContrast`. -/
structure ContrastReport where
  value : Frac
  adequate : Bool

/-- `ImageQualityModule.checkContrast` (running min from 255 and max
from 0 over the stride-16 sample). -/
def checkContrast (data : List ℕ) : ContrastReport :=
  let idxs := sampleIdxs data.length
  let grays := idxs.map (fun i => grayAt data i)
  let minG := grays.foldl Frac.minF (Frac.ofNat 255)
  let maxG := grays.foldl Frac.maxF (Frac.ofNat 0)
  let contrast := maxG.sub minG
  ⟨contrast, Frac.ble (Frac.ofNat 50) contrast⟩

/-- The result of `ImageQualityModule.estimateTextSize`. -/
structure TextSizeReport where
  estimatedDPI : Frac
  minTextSizePixels : Frac
  adequate : Bool

/-- `ImageQualityModule.estimateTextSize`: `min(width/8.27, height/11.69)`
as exact rationals. -/
def estimateTextSize (width height : ℕ) : TextSizeReport :=
  let dpi :=
    Frac.minF (((Frac.ofNat width).mul (Frac.ofNat 100)).divNat 827)
      (((Frac.ofNat height).mul (Frac.ofNat 100)).divNat 1169)
  let minPixels := ((Frac.ofNat 10).divNat 72).mul dpi
  ⟨dpi, minPixels, Frac.ble (Frac.ofNat 150) dpi && decide (1000 ≤ width)⟩

/-- The aggregated quality report of `ImageQualityModule.analyzeQuality`.
`issues = none` models the JS object without an `issues` property (the
all-checks-pass case never sets it). -/
structure QualityReport where
  resolution : ResolutionReport
  blur : BlurReport
  brightness : BrightnessReport
  contrast : ContrastReport
  textSize : TextSizeReport
  overall : String
  issues : Option (List String)

/-- The issue list built by `analyzeQuality`, in source order.  For a
failing brightness check the source pushes `quality.brightness.issue`;
that value can only be `null` for an empty pixel buffer (modelled here by
the placeholder `"null"`, unreachable for a well-formed image). -/
def qualityIssueList (res : ResolutionReport) (blur : BlurReport)
    (bright : BrightnessReport) (contr : ContrastReport) (ts : TextSizeReport) :
    List String :=
  (if !res.adequate then ["low resolution"] else []) ++
  (if blur.isBlurry then ["blurry"] else []) ++
  (if !bright.adequate then [bright.issue.getD "null"] else []) ++
  (if !contr.adequate then ["low contrast"] else []) ++
  (if !ts.adequate then ["text too small"] else [])

/-- `ImageQualityModule.analyzeQuality` on a decoded pixel buffer. -/
def analyzeQuality (width height : ℕ) (data : List ℕ) : QualityReport :=
  let res := checkResolution width height
  let blur := detectBlur width height data
  let bright := checkBrightness data
  let contr := checkContrast data
  let ts := estimateTextSize width height
  let issues := qualityIssueList res blur bright contr ts
  if issues.isEmpty then ⟨res, blur, bright, contr, ts, "good", none⟩
  else ⟨res, blur, bright, contr, ts, "poor", some issues⟩

/-- Specification-side description of the merge winner (used to settle the
tie-break claim): the most frequent non-blank value, where a tie between
values with the highest frequency is broken by the first tied value in JS
object-key enumeration order of the distinct values (canonical numeric
strings ascending first, then the rest in first-occurrence order). -/
def specMostFrequent (f : FieldName) (bds : List BillData) : String :=
  let values := (bds.map (fun b => b.get f)).filter jsTruthyNonBlank
  match values with
  | [] => ""
  | v0 :: _ =>
    let keys := jsKeyOrder (firstDedup values)
    let maxFreq := (keys.map (fun k => values.count k)).foldr max 0
    (keys.find? fun k => values.count k == maxFreq).getD v0

theorem mem_dropWhile_of_neg {α : Type} {p : α → Bool} {l : List α} {c : α}
    (hc : c ∈ l) (hw : p c = false) : c ∈ l.dropWhile p := by
  have := List.takeWhile_append_dropWhile p l
  rw [← this] at hc
  rcases List.mem_append.mp hc with h | h
  · exact absurd (List.mem_takeWhile_imp h) (by simp [hw])
  · exact h

theorem dropTrail_cons_not_ws {c : Char} (l : List Char) (h : isWsChar c = false) :
    dropTrail (c :: l) = c :: dropTrail l := by
  unfold dropTrail
  rw [List.reverse_cons, List.dropWhile_append]
  by_cases he : (l.reverse.dropWhile isWsChar).isEmpty
  · simp only [he, if_true]
    rw [List.isEmpty_iff] at he
    simp [List.dropWhile_cons, h, he]
  · simp [he]

theorem trimList_cons_not_ws {c : Char} (l : List Char) (h : isWsChar c = false) :
    trimList (c :: l) = c :: dropTrail l := by
  unfold trimList dropLead
  rw [List.dropWhile_cons, h]
  simp only [Bool.false_eq_true, if_false]
  exact dropTrail_cons_not_ws l h

theorem dropTrail_idem (l : List Char) : dropTrail (dropTrail l) = dropTrail l :=
  List.rdropWhile_idempotent isWsChar l

theorem trimList_idem (l : List Char) : trimList (trimList l) = trimList l := by
  cases hdl : dropLead l with
  | nil =>
    show trimList (dropTrail (dropLead l)) = dropTrail (dropLead l)
    rw [hdl]
    rfl
  | cons c t =>
    have hc : isWsChar c = false := by
      have hne : l.dropWhile isWsChar ≠ [] := by
        intro hnil
        rw [show l.dropWhile isWsChar = dropLead l from rfl, hdl] at hnil
        exact List.cons_ne_nil _ _ hnil
      have := List.head_dropWhile_not isWsChar l hne
      have hh : (l.dropWhile isWsChar).head hne = c := by
        have : l.dropWhile isWsChar = c :: t := hdl
        simp [this]
      rw [hh] at this
      simpa using this
    show trimList (dropTrail (dropLead l)) = dropTrail (dropLead l)
    rw [hdl, dropTrail_cons_not_ws t hc, trimList_cons_not_ws _ hc, dropTrail_idem]

theorem data_mk (l : List Char) : (String.mk l).data = l := rfl

theorem mk_eq_empty_iff (l : List Char) : String.mk l = "" ↔ l = [] := by
  constructor
  · intro h
    have := congrArg String.data h
    simpa using this
  · intro h
    rw [h]

theorem jsTrim_idem (s : String) : jsTrim (jsTrim s) = jsTrim s := by
  unfold jsTrim
  rw [data_mk, trimList_idem]

theorem mem_trimList {l : List Char} {c : Char} (hc : c ∈ l) (hw : isWsChar c = false) :
    c ∈ trimList l := by
  unfold trimList dropLead dropTrail
  have h1 : c ∈ l.dropWhile isWsChar := mem_dropWhile_of_neg hc hw
  have h2 : c ∈ (l.dropWhile isWsChar).reverse := List.mem_reverse.mpr h1
  have h3 : c ∈ (l.dropWhile isWsChar).reverse.dropWhile isWsChar :=
    mem_dropWhile_of_neg h2 hw
  exact List.mem_reverse.mpr h3

theorem jsTrim_ne_empty_of_mem {s : String} {c : Char} (hc : c ∈ s.data)
    (hw : isWsChar c = false) : jsTrim s ≠ "" := by
  unfold jsTrim
  rw [Ne, mk_eq_empty_iff]
  intro h
  exact absurd (h ▸ mem_trimList hc hw) (List.not_mem_nil c)

theorem firstMatch_some {α : Type} (f : List Char → Option α) :
    ∀ (l : List Char) (a : α), firstMatch f l = some a → ∃ s : List Char, f s = some a := by
  intro l
  induction l with
  | nil =>
    intro a h
    exact ⟨[], h⟩
  | cons c t ih =>
    intro a h
    unfold firstMatch at h
    cases hf : f (c :: t) with
    | some b =>
      rw [hf] at h
      exact ⟨c :: t, hf.trans h⟩
    | none =>
      rw [hf] at h
      exact ih a h

theorem isWsChar_eq_false_of_digit {c : Char} (h : isDigitChar c = true) :
    isWsChar c = false := by
  by_contra hw
  have hw' : isWsChar c = true := by simpa using hw
  unfold isWsChar at hw'
  simp only [Bool.or_eq_true, beq_iff_eq] at hw'
  rcases hw' with ((((((h' | h') | h') | h') | h') | h') | h') | h' <;> subst h' <;>
    exact absurd h (by decide)

theorem isWsChar_eq_false_of_letter {c : Char} (h : isAsciiLetter c = true) :
    isWsChar c = false := by
  by_contra hw
  have hw' : isWsChar c = true := by simpa using hw
  unfold isWsChar at hw'
  simp only [Bool.or_eq_true, beq_iff_eq] at hw'
  rcases hw' with ((((((h' | h') | h') | h') | h') | h') | h') | h' <;> subst h' <;>
    exact absurd h (by decide)

theorem isWsChar_dot : isWsChar '.' = false := by decide

theorem isWsChar_dash : isWsChar '-' = false := by decide

theorem natDigitsRev_digits :
    ∀ (fuel n : ℕ) (c : Char), c ∈ natDigitsRev fuel n → isDigitChar c = true := by
  intro fuel
  induction fuel with
  | zero =>
    intro n c hc
    exact absurd hc (List.not_mem_nil c)
  | succ fuel ih =>
    intro n c hc
    unfold natDigitsRev at hc
    by_cases h : n < 10
    · rw [if_pos h] at hc
      rcases List.mem_singleton.mp hc with rfl
      interval_cases n <;> decide
    · rw [if_neg h] at hc
      rcases List.mem_cons.mp hc with rfl | hmem
      · have hm : n % 10 < 10 := Nat.mod_lt n (by norm_num)
        interval_cases hh : n % 10 <;> decide
      · exact ih (n / 10) c hmem

theorem natDigitsRev_ne_nil (fuel n : ℕ) (h : 0 < fuel) : natDigitsRev fuel n ≠ [] := by
  cases fuel with
  | zero => exact absurd h (by norm_num)
  | succ fuel =>
    unfold natDigitsRev
    by_cases hn : n < 10 <;> simp [hn]

theorem scaledToString_chars (a : ScaledNum) :
    ∀ c ∈ (scaledToString a).data, isDigitChar c = true ∨ c = '.' := by
  intro c hc
  unfold scaledToString at hc
  by_cases h2 : (normScaled a.mant a.scale).2 == 0
  · rw [if_pos h2] at hc
    unfold natToString at hc
    rw [data_mk, List.mem_reverse] at hc
    exact Or.inl (natDigitsRev_digits _ _ c hc)
  · rw [if_neg h2] at hc
    rw [String.data_append, String.data_append] at hc
    rcases List.mem_append.mp hc with hc1 | hcdot
    · rcases List.mem_append.mp hc1 with hcint | hcd
      · by_cases hie : ((natDigitsRev ((normScaled a.mant a.scale).1 + 1)
            (normScaled a.mant a.scale).1).drop (normScaled a.mant a.scale).2).isEmpty
        · rw [if_pos hie] at hcint
          left
          rcases List.mem_singleton.mp hcint with rfl
          decide
        · rw [if_neg hie] at hcint
          rw [data_mk, List.mem_reverse] at hcint
          exact Or.inl (natDigitsRev_digits _ _ c (List.mem_of_mem_drop hcint))
      · right
        simpa using hcd
    · rw [data_mk, List.mem_reverse] at hcdot
      rcases List.mem_append.mp hcdot with hct | hcr
      · exact Or.inl (natDigitsRev_digits _ _ c (List.mem_of_mem_take hct))
      · left
        rcases List.eq_of_mem_replicate hcr with rfl
        decide

theorem scaledToString_ne_empty (a : ScaledNum) : scaledToString a ≠ "" := by
  unfold scaledToString
  by_cases h2 : (normScaled a.mant a.scale).2 == 0
  · rw [if_pos h2]
    unfold natToString
    rw [Ne, mk_eq_empty_iff]
    intro h
    exact natDigitsRev_ne_nil _ _ (Nat.succ_pos _) (by simpa using congrArg List.reverse h)
  · rw [if_neg h2]
    intro h
    have := congrArg String.data h
    rw [String.data_append, String.data_append] at this
    simp at this

theorem numCapAt_chars {s cap : List Char} (h : numCapAt s = some cap) :
    ∀ c ∈ cap, isDigitChar c = true ∨ c = ',' ∨ c = '.' := by
  intro c hc
  simp only [numCapAt] at h
  split at h
  · exact absurd h (by simp)
  · rw [Option.some_inj] at h
    subst h
    rcases List.mem_append.mp hc with hr | hd
    · have hdc := List.mem_takeWhile_imp hr
      unfold isDigitComma at hdc
      rcases Bool.or_eq_true _ _ |>.mp hdc with h1 | h1
      · exact Or.inl h1
      · exact Or.inr (Or.inl (by simpa using h1))
    · split at hd
      · rcases List.mem_cons.mp hd with rfl | hm
        · exact Or.inr (Or.inr rfl)
        · exact Or.inl (List.mem_takeWhile_imp hm)
      · exact absurd hd (List.not_mem_nil c)

theorem custCapAt_shape {s cap : List Char} (h : custCapAt s = some cap) :
    ∃ c0 rest, cap = c0 :: rest ∧ isAsciiLetter c0 = true := by
  simp only [custCapAt] at h
  split at h
  · exact absurd h (by simp)
  · split at h
    · rename_i c0 s3 heq
      split at h
      · rename_i hc0
        split at h
        · split at h
          · rcases Option.map_eq_some'.mp h with ⟨e, _, he⟩
            exact ⟨c0, _, he.symm, hc0⟩
          · exact absurd h (by simp)
        · exact absurd h (by simp)
      · exact absurd h (by simp)
    · exact absurd h (by simp)

theorem custP1At_shape {s cap : List Char} (h : custP1At s = some cap) :
    ∃ c0 rest, cap = c0 :: rest ∧ isAsciiLetter c0 = true := by
  unfold custP1At at h
  split at h
  · rename_i cap0 heq
    rcases Option.bind_eq_some.mp heq with ⟨s1, _, h2⟩
    rw [Option.some_inj] at h
    exact h ▸ custCapAt_shape h2
  · split at h
    · rename_i cap0 heq
      rcases Option.bind_eq_some.mp heq with ⟨s1, _, h2⟩
      rw [Option.some_inj] at h
      exact h ▸ custCapAt_shape h2
    · rcases Option.bind_eq_some.mp h with ⟨s1, _, h2⟩
      exact custCapAt_shape h2

theorem custP2At_shape {s cap : List Char} (h : custP2At s = some cap) :
    ∃ c0 rest, cap = c0 :: rest ∧ isAsciiLetter c0 = true := by
  unfold custP2At at h
  rcases Option.bind_eq_some.mp h with ⟨s1, _, h2⟩
  exact custCapAt_shape h2

theorem gstP1At_numCap {s cap : List Char} (h : gstP1At s = some cap) :
    ∃ s', numCapAt s' = some cap := by
  unfold gstP1At at h
  split at h
  · rename_i cap0 heq
    rcases Option.bind_eq_some.mp heq with ⟨s1, _, h2⟩
    rw [Option.some_inj] at h
    exact ⟨s1, h ▸ h2⟩
  · rcases Option.bind_eq_some.mp h with ⟨s1, _, h2⟩
    exact ⟨s1, h2⟩

theorem gstP2At_numCap {s cap : List Char} (h : gstP2At s = some cap) :
    ∃ s', numCapAt s' = some cap := by
  unfold gstP2At at h
  rcases Option.bind_eq_some.mp h with ⟨s1, _, h2⟩
  exact ⟨s1, h2⟩

theorem totalP1At_numCap {s cap : List Char} (h : totalP1At s = some cap) :
    ∃ s', numCapAt s' = some cap := by
  unfold totalP1At at h
  split at h
  · rename_i cap0 heq
    rcases Option.bind_eq_some.mp heq with ⟨s1, _, h2⟩
    rw [Option.some_inj] at h
    exact ⟨s1, h ▸ h2⟩
  · split at h
    · rename_i cap0 heq
      rcases Option.bind_eq_some.mp heq with ⟨s1, _, h2⟩
      rw [Option.some_inj] at h
      exact ⟨s1, h ▸ h2⟩
    · rcases Option.bind_eq_some.mp h with ⟨s1, _, h2⟩
      exact ⟨s1, h2⟩

theorem totalP2At_numCap {s cap : List Char} (h : totalP2At s = some cap) :
    ∃ s', numCapAt s' = some cap := by
  unfold totalP2At at h
  rcases Option.bind_eq_some.mp h with ⟨s1, _, h2⟩
  exact ⟨s1, h2⟩

theorem totalLabelCapture_chars {t : String} {cap : List Char}
    (h : totalLabelCapture t = some cap) :
    ∀ c ∈ cap, isDigitChar c = true ∨ c = ',' ∨ c = '.' := by
  unfold totalLabelCapture at h
  split at h
  · rename_i cap0 heq
    rw [Option.some_inj] at h
    subst h
    rcases firstMatch_some _ _ _ heq with ⟨s, hs⟩
    rcases totalP1At_numCap hs with ⟨s', hn⟩
    exact numCapAt_chars hn
  · rcases firstMatch_some _ _ _ h with ⟨s, hs⟩
    rcases totalP2At_numCap hs with ⟨s', hn⟩
    exact numCapAt_chars hn

theorem stripCommas_trim_ne {cap : List Char}
    (hchars : ∀ c ∈ cap, isDigitChar c = true ∨ c = ',' ∨ c = '.')
    (hne : stripCommas cap ≠ "") : jsTrim (stripCommas cap) ≠ "" := by
  have hd : (stripCommas cap).data ≠ [] := by
    intro hnil
    exact hne (by unfold stripCommas at hnil ⊢; rw [mk_eq_empty_iff]; simpa using hnil)
  obtain ⟨c, hc⟩ := List.exists_mem_of_ne_nil _ hd
  have hc' : c ∈ cap.filter (fun c => c != ',') := by
    unfold stripCommas at hc
    simpa using hc
  rcases List.mem_filter.mp hc' with ⟨hmem, hnc⟩
  rcases hchars c hmem with hdig | hcomma | hdot
  · exact jsTrim_ne_empty_of_mem hc (isWsChar_eq_false_of_digit hdig)
  · exact absurd hcomma (by simpa using hnc)
  · subst hdot
    exact jsTrim_ne_empty_of_mem hc isWsChar_dot

theorem exists_three {α : Type} {l : List α} (h : l.length = 3) :
    ∃ a b c, l = [a, b, c] := by
  rcases l with _ | ⟨a, _ | ⟨b, _ | ⟨c, _ | ⟨d, t⟩⟩⟩⟩
  · simp at h
  · simp at h
  · simp at h
  · exact ⟨a, b, c, rfl⟩
  · simp only [List.length_cons, List.length_nil] at h
    omega

theorem formatDateParts_dash (p0 p1 p2 : String) :
    '-' ∈ (formatDateParts [p0, p1, p2]).data := by
  unfold formatDateParts
  split <;> (try split) <;> simp [String.data_append]

theorem dateLoop_dash :
    ∀ os : List (Option String), dateLoop os = "" ∨ '-' ∈ (dateLoop os).data := by
  intro os
  induction os with
  | nil => exact Or.inl rfl
  | cons o rest ih =>
    cases o with
    | none => exact ih
    | some tok =>
      simp only [dateLoop]
      split
      · rename_i h3
        right
        obtain ⟨a, b, c, habc⟩ := exists_three (by simpa using h3)
        rw [habc]
        exact formatDateParts_dash a b c
      · exact ih

theorem extractBillNo_of_p1 {t : String} {cap : String}
    (h1 : firstMatch billNoP1At t.data = some cap) : extractBillNo t = jsTrim cap := by
  simp only [extractBillNo, h1]

theorem extractBillNo_of_p2 {t : String} {cap : String}
    (h1 : firstMatch billNoP1At t.data = none)
    (h2 : firstMatch billNoP2At t.data = some cap) : extractBillNo t = jsTrim cap := by
  simp only [extractBillNo, h1, h2]

theorem extractBillNo_of_p3 {t : String} {cap : String}
    (h1 : firstMatch billNoP1At t.data = none)
    (h2 : firstMatch billNoP2At t.data = none)
    (h3 : firstMatch billNoP3At t.data = some cap) : extractBillNo t = jsTrim cap := by
  simp only [extractBillNo, h1, h2, h3]

theorem extractBillNo_of_none {t : String}
    (h1 : firstMatch billNoP1At t.data = none)
    (h2 : firstMatch billNoP2At t.data = none)
    (h3 : firstMatch billNoP3At t.data = none) : extractBillNo t = "" := by
  simp only [extractBillNo, h1, h2, h3]

theorem extractBillNo_blank (t : String) (h : extractBillNo t ≠ "") :
    jsTrim (extractBillNo t) ≠ "" := by
  cases h1 : firstMatch billNoP1At t.data with
  | some cap =>
    rw [extractBillNo_of_p1 h1] at h ⊢
    rw [jsTrim_idem]
    exact h
  | none =>
    cases h2 : firstMatch billNoP2At t.data with
    | some cap =>
      rw [extractBillNo_of_p2 h1 h2] at h ⊢
      rw [jsTrim_idem]
      exact h
    | none =>
      cases h3 : firstMatch billNoP3At t.data with
      | some cap =>
        rw [extractBillNo_of_p3 h1 h2 h3] at h ⊢
        rw [jsTrim_idem]
        exact h
      | none =>
        rw [extractBillNo_of_none h1 h2 h3] at h
        exact absurd rfl h

theorem extractDate_blank (t : String) (h : extractDate t ≠ "") :
    jsTrim (extractDate t) ≠ "" := by
  rcases dateLoop_dash
      [firstMatch dateP1At t.data, firstMatch dateCoreAt t.data,
       firstMatch date4At t.data] with h0 | hmem
  · exact absurd h0 h
  · exact jsTrim_ne_empty_of_mem hmem isWsChar_dash

theorem custProcess_trim_ne {cap : List Char} {c0 : Char} {rest : List Char}
    (hcap : cap = c0 :: rest) (hl : isAsciiLetter c0 = true) :
    jsTrim (custProcess cap) ≠ "" := by
  subst hcap
  have hw := isWsChar_eq_false_of_letter hl
  have hnl : (c0 != '\n') = true := by
    by_contra hne
    have : c0 = '\n' := by simpa using hne
    subst this
    exact absurd hl (by decide)
  have hdata : ∃ r, (custProcess (c0 :: rest)).data = c0 :: r := by
    unfold custProcess
    rw [data_mk, trimList_cons_not_ws _ hw, List.takeWhile_cons, hnl]
    simp only [if_true]
    rw [show (100 : ℕ) = 99 + 1 from rfl, List.take_succ_cons]
    exact ⟨_, rfl⟩
  obtain ⟨r, hr⟩ := hdata
  exact jsTrim_ne_empty_of_mem (hr ▸ List.mem_cons_self c0 r) hw

theorem extractCustomer_of_p1 {t : String} {cap : List Char}
    (h1 : firstMatch custP1At t.data = some cap) : extractCustomer t = custProcess cap := by
  simp only [extractCustomer, h1]

theorem extractCustomer_of_p2 {t : String} {cap : List Char}
    (h1 : firstMatch custP1At t.data = none)
    (h2 : firstMatch custP2At t.data = some cap) : extractCustomer t = custProcess cap := by
  simp only [extractCustomer, h1, h2]

theorem extractCustomer_of_none {t : String}
    (h1 : firstMatch custP1At t.data = none)
    (h2 : firstMatch custP2At t.data = none) : extractCustomer t = "" := by
  simp only [extractCustomer, h1, h2]

theorem extractCustomer_blank (t : String) (h : extractCustomer t ≠ "") :
    jsTrim (extractCustomer t) ≠ "" := by
  cases h1 : firstMatch custP1At t.data with
  | some cap =>
    rw [extractCustomer_of_p1 h1] at h ⊢
    rcases firstMatch_some _ _ _ h1 with ⟨s, hs⟩
    rcases custP1At_shape hs with ⟨c0, rest, hcap, hl⟩
    exact custProcess_trim_ne hcap hl
  | none =>
    cases h2 : firstMatch custP2At t.data with
    | some cap =>
      rw [extractCustomer_of_p2 h1 h2] at h ⊢
      rcases firstMatch_some _ _ _ h2 with ⟨s, hs⟩
      rcases custP2At_shape hs with ⟨c0, rest, hcap, hl⟩
      exact custProcess_trim_ne hcap hl
    | none =>
      rw [extractCustomer_of_none h1 h2] at h
      exact absurd rfl h

theorem extractGst_of_p1 {t : String} {cap : List Char}
    (h1 : firstMatch gstP1At t.data = some cap) : extractGst t = stripCommas cap := by
  simp only [extractGst, h1]

theorem extractGst_of_p2 {t : String} {cap : List Char}
    (h1 : firstMatch gstP1At t.data = none)
    (h2 : firstMatch gstP2At t.data = some cap) : extractGst t = stripCommas cap := by
  simp only [extractGst, h1, h2]

theorem extractGst_of_none {t : String}
    (h1 : firstMatch gstP1At t.data = none)
    (h2 : firstMatch gstP2At t.data = none) : extractGst t = "" := by
  simp only [extractGst, h1, h2]

theorem extractGst_blank (t : String) (h : extractGst t ≠ "") :
    jsTrim (extractGst t) ≠ "" := by
  cases h1 : firstMatch gstP1At t.data with
  | some cap =>
    rw [extractGst_of_p1 h1] at h ⊢
    rcases firstMatch_some _ _ _ h1 with ⟨s, hs⟩
    rcases gstP1At_numCap hs with ⟨s', hn⟩
    exact stripCommas_trim_ne (numCapAt_chars hn) h
  | none =>
    cases h2 : firstMatch gstP2At t.data with
    | some cap =>
      rw [extractGst_of_p2 h1 h2] at h ⊢
      rcases firstMatch_some _ _ _ h2 with ⟨s, hs⟩
      rcases gstP2At_numCap hs with ⟨s', hn⟩
      exact stripCommas_trim_ne (numCapAt_chars hn) h
    | none =>
      rw [extractGst_of_none h1 h2] at h
      exact absurd rfl h

theorem scaledToString_trim_ne (a : ScaledNum) : jsTrim (scaledToString a) ≠ "" := by
  have hd : (scaledToString a).data ≠ [] := by
    intro hnil
    exact scaledToString_ne_empty a (by
      have hmk : scaledToString a = String.mk (scaledToString a).data := rfl
      rw [hmk, hnil])
  obtain ⟨c, hc⟩ := List.exists_mem_of_ne_nil _ hd
  rcases scaledToString_chars a c hc with hdig | hdot
  · exact jsTrim_ne_empty_of_mem hc (isWsChar_eq_false_of_digit hdig)
  · subst hdot
    exact jsTrim_ne_empty_of_mem hc isWsChar_dot

theorem extractTotal_of_label {t : String} {cap : List Char}
    (hlc : totalLabelCapture t = some cap) :
    extractTotal t =
      if stripCommas cap = "" then (fallbackTotal t).getD (stripCommas cap)
      else stripCommas cap := by
  simp only [extractTotal, hlc]
  by_cases hne : stripCommas cap = ""
  · simp only [hne, bne_self_eq_false, Bool.false_eq_true, if_false, if_true]
    try (cases fallbackTotal t <;> simp)
  · have : (stripCommas cap != "") = true := by simpa using hne
    simp only [this, if_true, hne, Bool.false_eq_true, if_false]

theorem extractTotal_of_nolabel {t : String} (hlc : totalLabelCapture t = none) :
    extractTotal t = (fallbackTotal t).getD "" := by
  simp only [extractTotal, hlc]
  simp only [bne_self_eq_false, Bool.false_eq_true, if_false]
  cases fallbackTotal t <;> simp

theorem fallbackTotal_scaled {t : String} {s : String} (hf : fallbackTotal t = some s) :
    ∃ a : ScaledNum, s = scaledToString a := by
  simp only [fallbackTotal] at hf
  split at hf
  · exact absurd hf (by simp)
  · rw [Option.some_inj] at hf
    exact ⟨_, hf.symm⟩

theorem extractTotal_blank (t : String) (h : extractTotal t ≠ "") :
    jsTrim (extractTotal t) ≠ "" := by
  cases hlc : totalLabelCapture t with
  | some cap =>
    rw [extractTotal_of_label hlc] at h ⊢
    by_cases hne : stripCommas cap = ""
    · rw [if_pos hne] at h ⊢
      cases hf : fallbackTotal t with
      | some s =>
        obtain ⟨a, ha⟩ := fallbackTotal_scaled hf
        rw [Option.getD_some, ha]
        exact scaledToString_trim_ne a
      | none =>
        rw [hf, Option.getD_none, hne] at h
        exact absurd rfl h
    · rw [if_neg hne] at h ⊢
      exact stripCommas_trim_ne (totalLabelCapture_chars hlc) hne
  | none =>
    rw [extractTotal_of_nolabel hlc] at h ⊢
    cases hf : fallbackTotal t with
    | some s =>
      obtain ⟨a, ha⟩ := fallbackTotal_scaled hf
      rw [Option.getD_some, ha]
      exact scaledToString_trim_ne a
    | none =>
      rw [hf, Option.getD_none] at h
      exact absurd rfl h

theorem extract_blank (t : String) (f : FieldName)
    (h : (extractBillData t).get f ≠ "") : jsTrim ((extractBillData t).get f) ≠ "" := by
  cases f with
  | billNo => exact extractBillNo_blank t h
  | date => exact extractDate_blank t h
  | customer => exact extractCustomer_blank t h
  | gst => exact extractGst_blank t h
  | total => exact extractTotal_blank t h

theorem jsTruthyNonBlank_extract (t : String) (f : FieldName) :
    jsTruthyNonBlank ((extractBillData t).get f) = ((extractBillData t).get f != "") := by
  by_cases h : (extractBillData t).get f = ""
  · rw [h]
    rfl
  · have ht := extract_blank t f h
    unfold jsTruthyNonBlank
    have h1 : ((extractBillData t).get f != "") = true := by simpa using h
    have h2 : (jsTrim ((extractBillData t).get f) != "") = true := by simpa using ht
    rw [h1, h2]
    rfl

theorem mem_insertAsc {x y : String} {l : List String} (h : x ∈ insertAsc y l) :
    x = y ∨ x ∈ l := by
  induction l with
  | nil =>
    rcases List.mem_singleton.mp h with rfl
    exact Or.inl rfl
  | cons z zs ih =>
    unfold insertAsc at h
    split at h
    · rcases List.mem_cons.mp h with rfl | h2
      · exact Or.inl rfl
      · exact Or.inr h2
    · rcases List.mem_cons.mp h with rfl | h2
      · exact Or.inr (List.mem_cons_self _ _)
      · rcases ih h2 with h3 | h3
        · exact Or.inl h3
        · exact Or.inr (List.mem_cons_of_mem _ h3)

theorem mem_insertAsc_of {x y : String} {l : List String} (h : x = y ∨ x ∈ l) :
    x ∈ insertAsc y l := by
  induction l with
  | nil =>
    rcases h with rfl | h2
    · exact List.mem_cons_self _ _
    · exact absurd h2 (List.not_mem_nil x)
  | cons z zs ih =>
    unfold insertAsc
    split
    · rcases h with rfl | h2
      · exact List.mem_cons_self _ _
      · exact List.mem_cons_of_mem _ h2
    · rcases h with rfl | h2
      · exact List.mem_cons_of_mem _ (ih (Or.inl rfl))
      · rcases List.mem_cons.mp h2 with rfl | h3
        · exact List.mem_cons_self _ _
        · exact List.mem_cons_of_mem _ (ih (Or.inr h3))

theorem mem_sortAsc {x : String} {l : List String} : x ∈ sortAsc l ↔ x ∈ l := by
  induction l with
  | nil => exact Iff.rfl
  | cons z zs ih =>
    unfold sortAsc
    constructor
    · intro h
      rcases mem_insertAsc h with rfl | h2
      · exact List.mem_cons_self _ _
      · exact List.mem_cons_of_mem _ (ih.mp h2)
    · intro h
      rcases List.mem_cons.mp h with rfl | h2
      · exact mem_insertAsc_of (Or.inl rfl)
      · exact mem_insertAsc_of (Or.inr (ih.mpr h2))

theorem mem_firstDedupAux {x : String} :
    ∀ (l seen : List String), x ∈ firstDedupAux seen l → x ∈ l := by
  intro l
  induction l with
  | nil =>
    intro seen h
    exact absurd h (List.not_mem_nil x)
  | cons z zs ih =>
    intro seen h
    unfold firstDedupAux at h
    split at h
    · exact List.mem_cons_of_mem _ (ih _ h)
    · rcases List.mem_cons.mp h with rfl | h2
      · exact List.mem_cons_self _ _
      · exact List.mem_cons_of_mem _ (ih _ h2)

theorem mem_firstDedupAux_of {x : String} :
    ∀ (l seen : List String), x ∈ l → x ∈ seen ∨ x ∈ firstDedupAux seen l := by
  intro l
  induction l with
  | nil =>
    intro seen h
    exact absurd h (List.not_mem_nil x)
  | cons z zs ih =>
    intro seen h
    unfold firstDedupAux
    split
    · rename_i hz
      rcases List.mem_cons.mp h with rfl | h2
      · exact Or.inl (List.elem_iff.mp hz)
      · exact ih seen h2
    · rcases List.mem_cons.mp h with rfl | h2
      · exact Or.inr (List.mem_cons_self _ _)
      · rcases ih (z :: seen) h2 with h3 | h3
        · rcases List.mem_cons.mp h3 with rfl | h4
          · exact Or.inr (List.mem_cons_self _ _)
          · exact Or.inl h4
        · exact Or.inr (List.mem_cons_of_mem _ h3)

theorem mem_firstDedup {x : String} {l : List String} : x ∈ firstDedup l ↔ x ∈ l := by
  constructor
  · exact mem_firstDedupAux l []
  · intro h
    rcases mem_firstDedupAux_of l [] h with h2 | h2
    · exact absurd h2 (List.not_mem_nil x)
    · exact h2

theorem mem_jsKeyOrder {x : String} {l : List String} : x ∈ jsKeyOrder l ↔ x ∈ l := by
  unfold jsKeyOrder
  constructor
  · intro h
    rcases List.mem_append.mp h with h1 | h1
    · exact (List.mem_filter.mp (mem_sortAsc.mp h1)).1
    · exact (List.mem_filter.mp h1).1
  · intro h
    by_cases hk : isArrayIndexKey x
    · exact List.mem_append.mpr (Or.inl (mem_sortAsc.mpr (List.mem_filter.mpr ⟨h, hk⟩)))
    · exact List.mem_append.mpr (Or.inr (List.mem_filter.mpr ⟨h, by simpa using hk⟩))

theorem mergeLoop_snd_mem (freq : String → ℕ) :
    ∀ (keys : List String) (maxF : ℕ) (best : String),
      (mergeLoop freq keys (maxF, best)).2 = best ∨
        (mergeLoop freq keys (maxF, best)).2 ∈ keys := by
  intro keys
  induction keys with
  | nil =>
    intro maxF best
    exact Or.inl rfl
  | cons k ks ih =>
    intro maxF best
    unfold mergeLoop
    split
    · rcases ih (freq k) k with h | h
      · exact Or.inr (by rw [h]; exact List.mem_cons_self _ _)
      · exact Or.inr (List.mem_cons_of_mem _ h)
    · rcases ih maxF best with h | h
      · exact Or.inl h
      · exact Or.inr (List.mem_cons_of_mem _ h)

theorem foldr_max_mem : ∀ (l : List ℕ), l ≠ [] → l.foldr max 0 ∈ l := by
  intro l
  induction l with
  | nil => intro h; exact absurd rfl h
  | cons x xs ih =>
    intro _
    rw [List.foldr_cons]
    cases xs with
    | nil => simp
    | cons y ys =>
      rcases Nat.le_total ((y :: ys).foldr max 0) x with h | h
      · rw [Nat.max_eq_left h]
        exact List.mem_cons_self _ _
      · rw [Nat.max_eq_right h]
        exact List.mem_cons_of_mem _ (ih (by simp))

theorem le_foldr_max : ∀ (l : List ℕ) (x : ℕ), x ∈ l → x ≤ l.foldr max 0 := by
  intro l
  induction l with
  | nil =>
    intro x h
    exact absurd h (List.not_mem_nil x)
  | cons y ys ih =>
    intro x h
    rw [List.foldr_cons]
    rcases List.mem_cons.mp h with rfl | h2
    · exact Nat.le_max_left _ _
    · exact le_trans (ih x h2) (Nat.le_max_right _ _)

theorem mergeLoop_eq (freq : String → ℕ) :
    ∀ (keys : List String) (maxF : ℕ) (best : String),
      mergeLoop freq keys (maxF, best) =
        if (keys.map freq).foldr max 0 ≤ maxF then (maxF, best)
        else ((keys.map freq).foldr max 0,
          ((keys.find? fun k => freq k == (keys.map freq).foldr max 0).getD best)) := by
  intro keys
  induction keys with
  | nil =>
    intro maxF best
    simp [mergeLoop]
  | cons k ks ih =>
    intro maxF best
    have hM : ((k :: ks).map freq).foldr max 0 = max (freq k) ((ks.map freq).foldr max 0) := by
      simp
    unfold mergeLoop
    split
    · rename_i hlt
      rw [ih (freq k) k]
      by_cases hks : (ks.map freq).foldr max 0 ≤ freq k
      · rw [if_pos hks]
        have hMk : ((k :: ks).map freq).foldr max 0 = freq k := by
          rw [hM]
          exact Nat.max_eq_left hks
        rw [if_neg (by rw [hMk]; omega)]
        rw [hMk]
        have hfind : ((k :: ks).find? fun j => freq j == freq k) = some k := by
          rw [List.find?_cons]
          simp
        rw [hfind]
        rfl
      · rw [if_neg hks]
        push_neg at hks
        have hMk : ((k :: ks).map freq).foldr max 0 = (ks.map freq).foldr max 0 := by
          rw [hM]
          exact Nat.max_eq_right (le_of_lt hks)
        rw [if_neg (by rw [hMk]; omega)]
        rw [hMk]
        have hkne : (freq k == (ks.map freq).foldr max 0) = false := by
          simp only [beq_eq_false_iff_ne, ne_eq]
          omega
        have hfind : ((k :: ks).find? fun j => freq j == (ks.map freq).foldr max 0) =
            ks.find? fun j => freq j == (ks.map freq).foldr max 0 := by
          rw [List.find?_cons, hkne]
        rw [hfind]
        have hksne : ks ≠ [] := by
          intro hnil
          rw [hnil] at hks
          simp at hks
        have hmem := foldr_max_mem (ks.map freq) (by simpa using hksne)
        rcases List.mem_map.mp hmem with ⟨j, hj, hje⟩
        have hsome : (ks.find? fun j => freq j == (ks.map freq).foldr max 0).isSome := by
          rw [List.find?_isSome]
          exact ⟨j, hj, by simp [hje]⟩
        rcases Option.isSome_iff_exists.mp hsome with ⟨w, hw⟩
        rw [hw]
        rfl
    · rename_i hnlt
      rw [ih maxF best]
      push_neg at hnlt
      by_cases hks : (ks.map freq).foldr max 0 ≤ maxF
      · rw [if_pos hks, if_pos (by rw [hM]; omega)]
      · rw [if_neg hks]
        push_neg at hks
        have hMk : ((k :: ks).map freq).foldr max 0 = (ks.map freq).foldr max 0 := by
          rw [hM]
          omega
        rw [if_neg (by rw [hMk]; omega)]
        rw [hMk]
        have hkne : (freq k == (ks.map freq).foldr max 0) = false := by
          simp only [beq_eq_false_iff_ne, ne_eq]
          omega
        rw [List.find?_cons, hkne]

theorem mergeField_nil {f : FieldName} {bds : List BillData}
    (h : (bds.map (fun b => b.get f)).filter jsTruthyNonBlank = []) :
    mergeField f bds = "" := by
  simp only [mergeField, h]

theorem mergeField_cons {f : FieldName} {bds : List BillData} {v0 : String}
    {vs : List String}
    (h : (bds.map (fun b => b.get f)).filter jsTruthyNonBlank = v0 :: vs) :
    mergeField f bds =
      (mergeLoop (fun k => (v0 :: vs).count k)
        (jsKeyOrder (firstDedup (v0 :: vs))) (0, v0)).2 := by
  simp only [mergeField, h]

theorem specMostFrequent_nil {f : FieldName} {bds : List BillData}
    (h : (bds.map (fun b => b.get f)).filter jsTruthyNonBlank = []) :
    specMostFrequent f bds = "" := by
  simp only [specMostFrequent, h]

theorem specMostFrequent_cons {f : FieldName} {bds : List BillData} {v0 : String}
    {vs : List String}
    (h : (bds.map (fun b => b.get f)).filter jsTruthyNonBlank = v0 :: vs) :
    specMostFrequent f bds =
      ((jsKeyOrder (firstDedup (v0 :: vs))).find? fun k =>
          (v0 :: vs).count k ==
            ((jsKeyOrder (firstDedup (v0 :: vs))).map
              (fun k => (v0 :: vs).count k)).foldr max 0).getD v0 := by
  simp only [specMostFrequent, h]

theorem mergeField_eq_spec (f : FieldName) (bds : List BillData) :
    mergeField f bds = specMostFrequent f bds := by
  cases hv : (bds.map (fun b => b.get f)).filter jsTruthyNonBlank with
  | nil => rw [mergeField_nil hv, specMostFrequent_nil hv]
  | cons v0 vs =>
    rw [mergeField_cons hv, specMostFrequent_cons hv, mergeLoop_eq]
    have hv0keys : v0 ∈ jsKeyOrder (firstDedup (v0 :: vs)) :=
      mem_jsKeyOrder.mpr (mem_firstDedup.mpr (List.mem_cons_self _ _))
    have hcount : 0 < (v0 :: vs).count v0 := List.count_pos_iff.mpr (List.mem_cons_self _ _)
    have hMpos : 0 <
        ((jsKeyOrder (firstDedup (v0 :: vs))).map
          (fun k => (v0 :: vs).count k)).foldr max 0 := by
      have hle := le_foldr_max _ ((v0 :: vs).count v0)
        (List.mem_map_of_mem (fun k => (v0 :: vs).count k) hv0keys)
      omega
    rw [if_neg (by omega)]

theorem mergeField_mem {f : FieldName} {bds : List BillData} {v0 : String}
    {vs : List String}
    (h : (bds.map (fun b => b.get f)).filter jsTruthyNonBlank = v0 :: vs) :
    mergeField f bds ∈ v0 :: vs := by
  rw [mergeField_cons h]
  rcases mergeLoop_snd_mem (fun k => (v0 :: vs).count k)
      (jsKeyOrder (firstDedup (v0 :: vs))) 0 v0 with he | he
  · rw [he]
    exact List.mem_cons_self _ _
  · exact mem_firstDedup.mp (mem_jsKeyOrder.mp he)

theorem mergeScanResults_billData_get (results : List OCRResult) (f : FieldName) :
    (mergeScanResults results).billData.get f =
      mergeField f (results.map (fun r => extractBillData r.text)) := by
  cases f <;> rfl

theorem mergeScanResults_fieldConf (results : List OCRResult) (f : FieldName) :
    (mergeScanResults results).fieldConf f =
      (if (((results.map (fun r => extractBillData r.text)).map
            (fun b => b.get f)).filter jsTruthyNonBlank).length == 0 then Frac.ofNat 0
       else
        (Frac.ofNat
          ((((results.map (fun r => extractBillData r.text)).map
              (fun b => b.get f)).filter jsTruthyNonBlank).filter
            (fun v => v == (mergeScanResults results).billData.get f)).length).divNat
          (((results.map (fun r => extractBillData r.text)).map
            (fun b => b.get f)).filter jsTruthyNonBlank).length) := rfl

theorem mergeScanResults_overall (results : List OCRResult) :
    (mergeScanResults results).overallConfidence =
      (Frac.sumList
        [(mergeScanResults results).fieldConf .billNo,
         (mergeScanResults results).fieldConf .date,
         (mergeScanResults results).fieldConf .customer,
         (mergeScanResults results).fieldConf .gst,
         (mergeScanResults results).fieldConf .total]).divNat 5 := rfl

theorem toRat_ofNat (n : ℕ) : (Frac.ofNat n).toRat = n := by
  unfold Frac.ofNat Frac.toRat
  simp

theorem toRat_divNat (a : Frac) (n : ℕ) : (a.divNat n).toRat = a.toRat / n := by
  unfold Frac.divNat Frac.toRat
  push_cast
  rw [div_div]

theorem toRat_add {a b : Frac} (ha : 0 < a.den) (hb : 0 < b.den) :
    (a.add b).toRat = a.toRat + b.toRat := by
  unfold Frac.add Frac.toRat
  have ha' : ((a.den : ℚ)) ≠ 0 := by positivity
  have hb' : ((b.den : ℚ)) ≠ 0 := by positivity
  field_simp
  try ring

theorem toRat_mul {a b : Frac} (ha : 0 < a.den) (hb : 0 < b.den) :
    (a.mul b).toRat = a.toRat * b.toRat := by
  unfold Frac.mul Frac.toRat
  have ha' : ((a.den : ℚ)) ≠ 0 := by positivity
  have hb' : ((b.den : ℚ)) ≠ 0 := by positivity
  field_simp

theorem blt_iff {a b : Frac} (ha : 0 < a.den) (hb : 0 < b.den) :
    Frac.blt a b = true ↔ a.toRat < b.toRat := by
  unfold Frac.blt Frac.toRat
  rw [decide_eq_true_eq]
  rw [div_lt_div_iff (by exact_mod_cast ha) (by exact_mod_cast hb)]
  exact ⟨fun h => by exact_mod_cast h, fun h => by exact_mod_cast h⟩

theorem ble_iff {a b : Frac} (ha : 0 < a.den) (hb : 0 < b.den) :
    Frac.ble a b = true ↔ a.toRat ≤ b.toRat := by
  unfold Frac.ble Frac.toRat
  rw [decide_eq_true_eq]
  rw [div_le_div_iff (by exact_mod_cast ha) (by exact_mod_cast hb)]
  exact ⟨fun h => by exact_mod_cast h, fun h => by exact_mod_cast h⟩

theorem beqv_iff {a b : Frac} (ha : 0 < a.den) (hb : 0 < b.den) :
    Frac.beqv a b = true ↔ a.toRat = b.toRat := by
  unfold Frac.beqv Frac.toRat
  rw [decide_eq_true_eq]
  rw [div_eq_div_iff (Nat.cast_ne_zero.mpr ha.ne') (Nat.cast_ne_zero.mpr hb.ne')]
  exact ⟨fun h => by exact_mod_cast h, fun h => by exact_mod_cast h⟩

theorem floorJs_toRat (a : Frac) : a.floorJs = ⌊a.toRat⌋ := by
  unfold Frac.floorJs Frac.toRat
  exact (Rat.floor_intCast_div_natCast a.num a.den).symm

theorem jsRound2_toRat {c : Frac} (hc : 0 < c.den) :
    (jsRound2 c).toRat = ((⌊c.toRat * 100 + 1 / 2⌋ : ℤ) : ℚ) / 100 := by
  unfold jsRound2 jsRound
  have h1 : (c.mul (Frac.ofNat 100)).toRat = c.toRat * 100 := by
    rw [toRat_mul hc (by norm_num [Frac.ofNat]), toRat_ofNat]
    norm_num
  have h2 : ((c.mul (Frac.ofNat 100)).add ⟨1, 2⟩).toRat = c.toRat * 100 + 1 / 2 := by
    rw [toRat_add (by simp [Frac.mul, Frac.ofNat]; omega) (by norm_num)]
    rw [h1]
    norm_num [Frac.toRat]
  rw [floorJs_toRat, h2]
  unfold Frac.toRat
  norm_num

/-- C10: for every field name that has never been recorded (and every
field after `reset`), `getFieldConfidence` returns an entry with
confidence 0, `needsReview` true and status `"unknown"` — a status value
outside the high/medium/low bands used for recorded fields. -/
theorem c10_unknown_default :
    (∀ (st : ConfState) (f : String), st f = none →
        getFieldConfidence st f = ⟨Frac.ofNat 0, true, "unknown", none⟩) ∧
    (∀ (st : ConfState) (f : String), confReset st f = none) ∧
    ("unknown" ≠ "high" ∧ "unknown" ≠ "medium" ∧ "unknown" ≠ "low") := by
  refine ⟨?_, ?_, by decide⟩
  · intro st f h
    unfold getFieldConfidence
    rw [h]
  · intro st f
    rfl

/-- Witness for C10 at the empty store and the field `"billNo"`. -/
theorem c10_unknown_default_witness :
    getFieldConfidence confEmpty "billNo" = ⟨Frac.ofNat 0, true, "unknown", none⟩ :=
  c10_unknown_default.1 confEmpty "billNo" rfl

/-- C1 (amended): `mergeField` returns the most frequent non-blank value
among the passes; a tie at the highest frequency is won by the first tied
value in JS object-key enumeration order of the distinct values —
canonical numeric strings ascending numerically first, then the remaining
values in earliest-pass order.  In particular tied totals "100","200"
merge to "100", and for non-numeric values the earliest pass wins. -/
theorem c1_mergeField_tiebreak :
    (∀ (f : FieldName) (bds : List BillData), mergeField f bds = specMostFrequent f bds) ∧
    mergeField FieldName.total
      [⟨"", "", "", "", "100"⟩, ⟨"", "", "", "", "200"⟩] = "100" ∧
    mergeField FieldName.billNo
      [⟨"B-7", "", "", "", ""⟩, ⟨"A-7", "", "", "", ""⟩] = "B-7" :=
  ⟨mergeField_eq_spec, by decide, by decide⟩

/-- C1 counterexample: with tied totals "200" (pass 1) and "100" (pass 2)
the claim's earliest-pass tie-break predicts "200", but the code returns
"100": the frequency object's numeric keys enumerate in ascending order,
not insertion order. -/
theorem c1_counterexample :
    mergeField FieldName.total
      [⟨"", "", "", "", "200"⟩, ⟨"", "", "", "", "100"⟩] = "100" ∧
    ¬ mergeField FieldName.total
      [⟨"", "", "", "", "200"⟩, ⟨"", "", "", "", "100"⟩] = "200" := by
  exact ⟨by decide, by decide⟩

/-- C9 (amended): on a well-formed non-empty buffer quality analysis is
total and the brightness division is well-defined; the blur division is
well-defined exactly when the image is at least 3×3 — for smaller images
its sample count is zero, the variance is NaN (modelled `none`) and
`isBlurry` is false, but nothing is thrown. -/
theorem c9_division_guards :
    ∀ (w h : ℕ) (data : List ℕ), 1 ≤ w → 1 ≤ h → data.length = 4 * w * h →
      (0 < (sampleIdxs data.length).length ∧
        (checkBrightness data).average.isSome = true) ∧
      (3 ≤ w → 3 ≤ h →
        0 < (blurLaps w h data).length ∧ (detectBlur w h data).variance.isSome = true) ∧
      (w < 3 ∨ h < 3 → blurLaps w h data = [] ∧
        (detectBlur w h data).variance = none ∧ (detectBlur w h data).isBlurry = false) ∧
      ((analyzeQuality w h data).overall = "good" ∨
        (analyzeQuality w h data).overall = "poor") := by
  intro w h data hw hh hlen
  have hlenpos : 0 < data.length := by
    rw [hlen]
    positivity
  have hsam : 0 < (sampleIdxs data.length).length := by
    have h0 : (0 : ℕ) ∈ sampleIdxs data.length := by
      unfold sampleIdxs
      exact List.mem_filter.mpr ⟨List.mem_range.mpr hlenpos, by decide⟩
    exact List.length_pos.mpr (List.ne_nil_of_mem h0)
  have hsamne : (sampleIdxs data.length).isEmpty = false := by
    rw [List.isEmpty_eq_false]
    exact (List.length_pos.mp hsam)
  refine ⟨⟨hsam, ?_⟩, ?_, ?_, ?_⟩
  · simp only [checkBrightness, hsamne, Bool.false_eq_true, if_false]
    rfl
  · intro hw3 hh3
    have hy : (1 : ℕ) ∈ blurYs h := by
      unfold blurYs
      refine List.mem_filter.mpr ⟨List.mem_range.mpr (by omega), ?_⟩
      simp only [Bool.and_eq_true, beq_iff_eq, decide_eq_true_eq]
      exact ⟨by norm_num, by omega⟩
    have hx : (1 : ℕ) ∈ blurXs w := by
      unfold blurXs
      refine List.mem_filter.mpr ⟨List.mem_range.mpr (by omega), ?_⟩
      simp only [Bool.and_eq_true, beq_iff_eq, decide_eq_true_eq]
      exact ⟨by norm_num, by omega⟩
    have hlaps : blurLaps w h data ≠ [] := by
      unfold blurLaps
      intro hnil
      rw [List.flatten_eq_nil_iff] at hnil
      have := hnil ((blurXs w).map (fun x => lapAt w data 1 x))
        (List.mem_map_of_mem _ hy)
      rw [List.map_eq_nil_iff] at this
      rw [this] at hx
      exact List.not_mem_nil 1 hx
    have hlapsne : (blurLaps w h data).isEmpty = false := by
      rw [List.isEmpty_eq_false]
      exact hlaps
    refine ⟨List.length_pos.mpr hlaps, ?_⟩
    simp only [detectBlur, hlapsne, Bool.false_eq_true, if_false]
    rfl
  · intro hsmall
    have hnil : blurLaps w h data = [] := by
      unfold blurLaps
      rcases hsmall with hw3 | hh3
      · have hxs : blurXs w = [] := by
          unfold blurXs
          rw [List.filter_eq_nil_iff]
          intro x hx
          simp only [Bool.and_eq_true, beq_iff_eq, decide_eq_true_eq, not_and]
          omega
        rw [hxs]
        simp
      · have hys : blurYs h = [] := by
          unfold blurYs
          rw [List.filter_eq_nil_iff]
          intro y hy
          rw [List.mem_range] at hy
          simp only [Bool.and_eq_true, beq_iff_eq, decide_eq_true_eq, not_and]
          omega
        rw [hys]
        simp
    have hnilE : (blurLaps w h data).isEmpty = true := by
      rw [hnil]
      rfl
    refine ⟨hnil, ?_, ?_⟩ <;> simp only [detectBlur, hnilE, if_true]
  · by_cases hI : (qualityIssueList (checkResolution w h) (detectBlur w h data)
        (checkBrightness data) (checkContrast data) (estimateTextSize w h)).isEmpty
    · left
      simp only [analyzeQuality, hI, if_true]
    · right
      simp only [analyzeQuality, hI, Bool.false_eq_true, if_false]

/-- Witness for C9 on a uniform 3×3 buffer. -/
theorem c9_division_guards_witness :
    (0 < (sampleIdxs (List.replicate 36 (100 : ℕ)).length).length ∧
      (checkBrightness (List.replicate 36 (100 : ℕ))).average.isSome = true) ∧
    (3 ≤ 3 → 3 ≤ 3 →
      0 < (blurLaps 3 3 (List.replicate 36 (100 : ℕ))).length ∧
      (detectBlur 3 3 (List.replicate 36 (100 : ℕ))).variance.isSome = true) ∧
    (3 < 3 ∨ 3 < 3 → blurLaps 3 3 (List.replicate 36 (100 : ℕ)) = [] ∧
      (detectBlur 3 3 (List.replicate 36 (100 : ℕ))).variance = none ∧
      (detectBlur 3 3 (List.replicate 36 (100 : ℕ))).isBlurry = false) ∧
    ((analyzeQuality 3 3 (List.replicate 36 (100 : ℕ))).overall = "good" ∨
      (analyzeQuality 3 3 (List.replicate 36 (100 : ℕ))).overall = "poor") :=
  c9_division_guards 3 3 (List.replicate 36 100) (by decide) (by decide) (by decide)

/-- C9 counterexample: a 1×1 buffer is non-empty (width and height ≥ 1),
yet the blur check's sample count is zero, so its mean and variance are
0/0 divisions (NaN, modelled `none`) — the division is not well-defined. -/
theorem c9_counterexample :
    blurLaps 1 1 [100, 100, 100, 255] = [] ∧
    (detectBlur 1 1 [100, 100, 100, 255]).variance = none := by
  exact ⟨by decide, by decide⟩

theorem qualityIssueList_eq_nil_iff (res : ResolutionReport) (blur : BlurReport)
    (bright : BrightnessReport) (contr : ContrastReport) (ts : TextSizeReport) :
    qualityIssueList res blur bright contr ts = [] ↔
      (res.adequate = true ∧ blur.isBlurry = false ∧ bright.adequate = true ∧
        contr.adequate = true ∧ ts.adequate = true) := by
  unfold qualityIssueList
  by_cases h1 : res.adequate <;> by_cases h2 : blur.isBlurry <;>
    by_cases h3 : bright.adequate <;> by_cases h4 : contr.adequate <;>
    by_cases h5 : ts.adequate <;> simp_all

/-- C7: for every analyzed image the report has `overall = "poor"` iff at
least one sub-check fails, equivalently iff the issues list is non-empty,
and the issues list records the failing checks in the fixed order
resolution, blur, brightness, contrast, text size. -/
theorem c7_overall_poor_iff :
    ∀ (w h : ℕ) (data : List ℕ), 1 ≤ w → 1 ≤ h → data.length = 4 * w * h →
      (((analyzeQuality w h data).overall = "poor") ↔
        (analyzeQuality w h data).issues ≠ none) ∧
      (((analyzeQuality w h data).overall = "poor") ↔
        ((analyzeQuality w h data).resolution.adequate = false ∨
          (analyzeQuality w h data).blur.isBlurry = true ∨
          (analyzeQuality w h data).brightness.adequate = false ∨
          (analyzeQuality w h data).contrast.adequate = false ∨
          (analyzeQuality w h data).textSize.adequate = false)) ∧
      ((analyzeQuality w h data).issues.getD [] =
        qualityIssueList (analyzeQuality w h data).resolution
          (analyzeQuality w h data).blur (analyzeQuality w h data).brightness
          (analyzeQuality w h data).contrast (analyzeQuality w h data).textSize) := by
  intro w h data _ _ _
  by_cases hI : (qualityIssueList (checkResolution w h) (detectBlur w h data)
      (checkBrightness data) (checkContrast data) (estimateTextSize w h)).isEmpty
  · have hq : analyzeQuality w h data =
        ⟨checkResolution w h, detectBlur w h data, checkBrightness data,
         checkContrast data, estimateTextSize w h, "good", none⟩ := by
      simp only [analyzeQuality, hI, if_true]
    have hnil : qualityIssueList (checkResolution w h) (detectBlur w h data)
        (checkBrightness data) (checkContrast data) (estimateTextSize w h) = [] :=
      List.isEmpty_iff.mp hI
    rcases (qualityIssueList_eq_nil_iff _ _ _ _ _).mp hnil with ⟨e1, e2, e3, e4, e5⟩
    rw [hq]
    refine ⟨by simp, ?_, by simpa using hnil.symm⟩
    simp [e1, e2, e3, e4, e5]
  · have hq : analyzeQuality w h data =
        ⟨checkResolution w h, detectBlur w h data, checkBrightness data,
         checkContrast data, estimateTextSize w h, "poor",
         some (qualityIssueList (checkResolution w h) (detectBlur w h data)
           (checkBrightness data) (checkContrast data) (estimateTextSize w h))⟩ := by
      simp only [analyzeQuality, hI, Bool.false_eq_true, if_false]
    have hne : qualityIssueList (checkResolution w h) (detectBlur w h data)
        (checkBrightness data) (checkContrast data) (estimateTextSize w h) ≠ [] := by
      simpa [List.isEmpty_iff] using hI
    rw [hq]
    refine ⟨by simp, ?_, by simp⟩
    simp only [true_iff]
    by_contra hno
    push_neg at hno
    rcases hno with ⟨n1, n2, n3, n4, n5⟩
    exact hne ((qualityIssueList_eq_nil_iff _ _ _ _ _).mpr
      ⟨by simpa using n1, by simpa using n2, by simpa using n3,
       by simpa using n4, by simpa using n5⟩)

/-- Witness for C7 on a uniform 2×2 buffer (resolution, contrast and text
size fail; the report is "poor" with exactly those issues in order). -/
theorem c7_overall_poor_iff_witness :
    (((analyzeQuality 2 2 (List.replicate 16 (100 : ℕ))).overall = "poor") ↔
      (analyzeQuality 2 2 (List.replicate 16 (100 : ℕ))).issues ≠ none) ∧
    (((analyzeQuality 2 2 (List.replicate 16 (100 : ℕ))).overall = "poor") ↔
      ((analyzeQuality 2 2 (List.replicate 16 (100 : ℕ))).resolution.adequate = false ∨
        (analyzeQuality 2 2 (List.replicate 16 (100 : ℕ))).blur.isBlurry = true ∨
        (analyzeQuality 2 2 (List.replicate 16 (100 : ℕ))).brightness.adequate = false ∨
        (analyzeQuality 2 2 (List.replicate 16 (100 : ℕ))).contrast.adequate = false ∨
        (analyzeQuality 2 2 (List.replicate 16 (100 : ℕ))).textSize.adequate = false)) ∧
    ((analyzeQuality 2 2 (List.replicate 16 (100 : ℕ))).issues.getD [] =
      qualityIssueList (analyzeQuality 2 2 (List.replicate 16 (100 : ℕ))).resolution
        (analyzeQuality 2 2 (List.replicate 16 (100 : ℕ))).blur
        (analyzeQuality 2 2 (List.replicate 16 (100 : ℕ))).brightness
        (analyzeQuality 2 2 (List.replicate 16 (100 : ℕ))).contrast
        (analyzeQuality 2 2 (List.replicate 16 (100 : ℕ))).textSize) :=
  c7_overall_poor_iff 2 2 (List.replicate 16 100) (by decide) (by decide) (by decide)

/-- C2 (amended): for every raw confidence input in [0,1] the stored
entry has the input rounded to two decimals as its confidence (hence in
[0,1]); `needsReview` compares the RAW input against 0.7 and `status` is
banded on the RAW input (≥0.8 high, ≥0.6 medium, else low), so both can
disagree with the stored rounded confidence. -/
theorem c2_setFieldConfidence_entry :
    ∀ (st : ConfState) (name : String) (c : Frac) (v : String),
      0 < c.den → 0 ≤ c.toRat → c.toRat ≤ 1 →
      ∃ e : ConfEntry, setFieldConfidence st name c v name = some e ∧
        e.confidence.toRat = ((⌊c.toRat * 100 + 1 / 2⌋ : ℤ) : ℚ) / 100 ∧
        0 ≤ e.confidence.toRat ∧ e.confidence.toRat ≤ 1 ∧
        (e.needsReview = true ↔ c.toRat < 7 / 10) ∧
        e.status = (if 8 / 10 ≤ c.toRat then "high"
          else if 6 / 10 ≤ c.toRat then "medium" else "low") ∧
        e.value = v := by
  intro st name c v hden h0 h1
  have h710 : ((⟨7, 10⟩ : Frac)).toRat = 7 / 10 := by norm_num [Frac.toRat]
  have h810 : ((⟨8, 10⟩ : Frac)).toRat = 8 / 10 := by norm_num [Frac.toRat]
  have h610 : ((⟨6, 10⟩ : Frac)).toRat = 6 / 10 := by norm_num [Frac.toRat]
  refine ⟨⟨jsRound2 c, v, Frac.blt c ⟨7, 10⟩,
    if Frac.ble ⟨8, 10⟩ c then "high"
    else if Frac.ble ⟨6, 10⟩ c then "medium" else "low"⟩, ?_, ?_, ?_, ?_, ?_, ?_, rfl⟩
  · unfold setFieldConfidence
    rw [if_pos (by simp)]
  · exact jsRound2_toRat hden
  · rw [jsRound2_toRat hden]
    have hf : (0 : ℤ) ≤ ⌊c.toRat * 100 + 1 / 2⌋ := by
      rw [Int.le_floor]
      push_cast
      nlinarith
    have hf' : (0 : ℚ) ≤ ((⌊c.toRat * 100 + 1 / 2⌋ : ℤ) : ℚ) := by exact_mod_cast hf
    positivity
  · rw [jsRound2_toRat hden]
    rw [div_le_one (by norm_num)]
    have hf : ⌊c.toRat * 100 + 1 / 2⌋ < 101 := by
      rw [Int.floor_lt]
      push_cast
      nlinarith
    exact_mod_cast (by omega : ⌊c.toRat * 100 + 1 / 2⌋ ≤ 100)
  · rw [blt_iff hden (by norm_num : 0 < (10 : ℕ)), h710]
  · by_cases h8 : 8 / 10 ≤ c.toRat
    · rw [if_pos h8,
        if_pos ((ble_iff (by norm_num : 0 < (10 : ℕ)) hden).mpr (by rw [h810]; exact h8))]
    · rw [if_neg h8, if_neg (by
        rw [ble_iff (by norm_num : 0 < (10 : ℕ)) hden, h810]
        simpa using h8)]
      by_cases h6 : 6 / 10 ≤ c.toRat
      · rw [if_pos h6,
          if_pos ((ble_iff (by norm_num : 0 < (10 : ℕ)) hden).mpr (by rw [h610]; exact h6))]
      · rw [if_neg h6, if_neg (by
          rw [ble_iff (by norm_num : 0 < (10 : ℕ)) hden, h610]
          simpa using h6)]

/-- Witness for C2 at raw input 1/2. -/
theorem c2_setFieldConfidence_entry_witness :
    ∃ e : ConfEntry, setFieldConfidence confEmpty "total" ⟨1, 2⟩ "50" "total" = some e ∧
      e.confidence.toRat = ((⌊(⟨1, 2⟩ : Frac).toRat * 100 + 1 / 2⌋ : ℤ) : ℚ) / 100 ∧
      0 ≤ e.confidence.toRat ∧ e.confidence.toRat ≤ 1 ∧
      (e.needsReview = true ↔ (⟨1, 2⟩ : Frac).toRat < 7 / 10) ∧
      e.status = (if 8 / 10 ≤ (⟨1, 2⟩ : Frac).toRat then "high"
        else if 6 / 10 ≤ (⟨1, 2⟩ : Frac).toRat then "medium" else "low") ∧
      e.value = "50" :=
  c2_setFieldConfidence_entry confEmpty "total" ⟨1, 2⟩ "50" (by norm_num)
    (by norm_num [Frac.toRat]) (by norm_num [Frac.toRat])

/-- C2 counterexample: the raw input 0.696 lies in [0,1]; the stored
entry then has confidence 0.7 (the rounding of 69.6) together with
`needsReview = true`, so the entry violates
`needsReview == (confidence < 0.7)` read on the stored confidence. -/
theorem c2_counterexample :
    (0 : ℚ) ≤ (⟨87, 125⟩ : Frac).toRat ∧ (⟨87, 125⟩ : Frac).toRat ≤ 1 ∧
    (getFieldConfidence (setFieldConfidence confEmpty "total" ⟨87, 125⟩ "x")
      "total").needsReview = true ∧
    (getFieldConfidence (setFieldConfidence confEmpty "total" ⟨87, 125⟩ "x")
      "total").confidence.toRat = 7 / 10 ∧
    ¬ ((7 : ℚ) / 10 < 7 / 10) := by
  refine ⟨by norm_num [Frac.toRat], by norm_num [Frac.toRat], by decide, ?_, by norm_num⟩
  have hc : (getFieldConfidence (setFieldConfidence confEmpty "total" ⟨87, 125⟩ "x")
      "total").confidence = ⟨70, 100⟩ := by decide
  rw [hc]
  norm_num [Frac.toRat]

theorem foldl_add_den_pos :
    ∀ (l : List Frac) (acc : Frac), 0 < acc.den → (∀ x ∈ l, 0 < x.den) →
      0 < (l.foldl Frac.add acc).den := by
  intro l
  induction l with
  | nil =>
    intro acc ha _
    exact ha
  | cons x xs ih =>
    intro acc ha hl
    exact ih (acc.add x)
      (Nat.mul_pos ha (hl x (List.mem_cons_self _ _)))
      (fun y hy => hl y (List.mem_cons_of_mem _ hy))

theorem foldl_add_toRat :
    ∀ (l : List Frac) (acc : Frac), 0 < acc.den → (∀ x ∈ l, 0 < x.den) →
      (l.foldl Frac.add acc).toRat = acc.toRat + (l.map Frac.toRat).sum := by
  intro l
  induction l with
  | nil =>
    intro acc _ _
    simp
  | cons x xs ih =>
    intro acc ha hl
    rw [List.foldl_cons,
      ih (acc.add x) (Nat.mul_pos ha (hl x (List.mem_cons_self _ _)))
        (fun y hy => hl y (List.mem_cons_of_mem _ hy)),
      toRat_add ha (hl x (List.mem_cons_self _ _))]
    simp [add_assoc]

theorem toRat_sumList (l : List Frac) (hl : ∀ x ∈ l, 0 < x.den) :
    (Frac.sumList l).toRat = (l.map Frac.toRat).sum := by
  unfold Frac.sumList
  rw [foldl_add_toRat l (Frac.ofNat 0) (by norm_num [Frac.ofNat]) hl, toRat_ofNat]
  simp

theorem estimate_eq_blank {words : List OCRWord} {ocrConf : Option Frac} {v : String}
    (h : (v == "" || jsTrim v == "") = true) :
    estimateFieldConfidence words ocrConf v = Frac.ofNat 0 := by
  simp only [estimateFieldConfidence, h, if_true]

theorem estimate_eq_nomatch {words : List OCRWord} {ocrConf : Option Frac} {v : String}
    (h : (v == "" || jsTrim v == "") = false)
    (hm : words.filter (fun w => jsIncludesCI v w.text || jsIncludesCI w.text v) = []) :
    estimateFieldConfidence words ocrConf v =
      (match ocrConf with
       | some c => if c.beqv (Frac.ofNat 0) then ⟨1, 2⟩ else c.divNat 100
       | none => (⟨1, 2⟩ : Frac)) := by
  simp only [estimateFieldConfidence, h, Bool.false_eq_true, if_false, hm]

theorem estimate_eq_match {words : List OCRWord} {ocrConf : Option Frac} {v : String}
    {m : OCRWord} {ms : List OCRWord}
    (h : (v == "" || jsTrim v == "") = false)
    (hm : words.filter (fun w => jsIncludesCI v w.text || jsIncludesCI w.text v) = m :: ms) :
    estimateFieldConfidence words ocrConf v =
      ((Frac.sumList ((m :: ms).map (fun w => w.confidence))).divNat
        (m :: ms).length).divNat 100 := by
  simp only [estimateFieldConfidence, h, Bool.false_eq_true, if_false, hm]

/-- C8 (amended): the estimated field confidence is 0 for a blank value;
the mean matching-word confidence over 100 when some OCR word matches the
value as a case-insensitive substring in either direction; otherwise the
overall OCR confidence over 100 when that is available AND non-zero, and
0.5 when it is unavailable or zero (JS treats a zero confidence as falsy
and falls back to 0.5). -/
theorem c8_estimate_confidence :
    ∀ (words : List OCRWord) (ocrConf : Option Frac) (v : String),
      (∀ w ∈ words, 0 < w.confidence.den) →
      (∀ c, ocrConf = some c → 0 < c.den) →
      (estimateFieldConfidence words ocrConf v).toRat =
        (if v = "" ∨ jsTrim v = "" then 0
         else if words.filter (fun w => jsIncludesCI v w.text || jsIncludesCI w.text v) = [] then
           (match ocrConf with
            | some c => if c.toRat = 0 then 1 / 2 else c.toRat / 100
            | none => (1 : ℚ) / 2)
         else
           ((words.filter (fun w =>
              jsIncludesCI v w.text || jsIncludesCI w.text v)).map
             (fun w => w.confidence.toRat)).sum /
             ((words.filter (fun w =>
               jsIncludesCI v w.text || jsIncludesCI w.text v)).length) / 100) := by
  intro words ocrConf v hwden hcden
  by_cases hv : v = "" ∨ jsTrim v = ""
  · have hb : (v == "" || jsTrim v == "") = true := by
      rcases hv with h | h <;> simp [h]
    rw [estimate_eq_blank hb, if_pos hv]
    norm_num [Frac.ofNat, Frac.toRat]
  · have hb : (v == "" || jsTrim v == "") = false := by
      push_neg at hv
      simp [hv.1, hv.2]
    rw [if_neg hv]
    cases hm : words.filter (fun w => jsIncludesCI v w.text || jsIncludesCI w.text v) with
    | nil =>
      rw [estimate_eq_nomatch hb hm, if_pos rfl]
      cases hoc : ocrConf with
      | none =>
        show (⟨1, 2⟩ : Frac).toRat = (1 : ℚ) / 2
        norm_num [Frac.toRat]
      | some c =>
        have hcd : 0 < c.den := hcden c hoc
        show (if c.beqv (Frac.ofNat 0) = true then (⟨1, 2⟩ : Frac)
            else c.divNat 100).toRat =
          (if c.toRat = 0 then (1 : ℚ) / 2 else c.toRat / 100)
        by_cases hz : c.toRat = 0
        · rw [if_pos ((beqv_iff hcd (by norm_num : 0 < (1 : ℕ))).mpr
            (by rw [hz, toRat_ofNat]; norm_num)), if_pos hz]
          norm_num [Frac.toRat]
        · rw [if_neg (fun hbe => hz (by
            have hveq := (beqv_iff hcd (by norm_num : 0 < (1 : ℕ))).mp hbe
            rw [toRat_ofNat] at hveq
            simpa using hveq)), if_neg hz]
          rw [toRat_divNat]
          norm_num
    | cons m ms =>
      rw [estimate_eq_match hb hm, if_neg (by simp)]
      rw [toRat_divNat, toRat_divNat,
        toRat_sumList _ (by
          intro x hx
          rcases List.mem_map.mp hx with ⟨wrd, hwrd, rfl⟩
          exact hwden wrd (List.mem_of_mem_filter (by rw [hm]; exact hwrd)))]
      simp only [List.map_map]
      rfl
/-- Witness for C8 with no words and a non-zero overall confidence. -/
theorem c8_estimate_confidence_witness :
    (estimateFieldConfidence [] (some ⟨50, 1⟩) "X").toRat =
      (if "X" = "" ∨ jsTrim "X" = "" then 0
       else if ([] : List OCRWord).filter
           (fun w => jsIncludesCI "X" w.text || jsIncludesCI w.text "X") = [] then
         (match (some (⟨50, 1⟩ : Frac)) with
          | some c => if c.toRat = 0 then 1 / 2 else c.toRat / 100
          | none => (1 : ℚ) / 2)
       else
         ((([] : List OCRWord).filter
            (fun w => jsIncludesCI "X" w.text || jsIncludesCI w.text "X")).map
           (fun w => w.confidence.toRat)).sum /
           ((([] : List OCRWord).filter
             (fun w => jsIncludesCI "X" w.text || jsIncludesCI w.text "X")).length) / 100) :=
  c8_estimate_confidence [] (some ⟨50, 1⟩) "X"
    (by intro w hw; exact absurd hw (List.not_mem_nil w))
    (by intro c hc; cases hc; decide)

/-- C8 counterexample: with a non-empty value, no words and an overall
OCR confidence of 0, the code returns 0.5 (zero is falsy in JS), while
the claim's "overall confidence divided by 100" would be 0. -/
theorem c8_counterexample :
    (estimateFieldConfidence [] (some ⟨0, 1⟩) "X").toRat = 1 / 2 ∧
    (⟨0, 1⟩ : Frac).toRat / 100 = 0 ∧ ((1 : ℚ) / 2 ≠ 0) := by
  refine ⟨?_, by norm_num [Frac.toRat], by norm_num⟩
  have he : estimateFieldConfidence [] (some ⟨0, 1⟩) "X" = ⟨1, 2⟩ := by decide
  rw [he]
  norm_num [Frac.toRat]

theorem jsKeyOrder_singleton (x : String) : jsKeyOrder (firstDedup [x]) = [x] := by
  have h1 : firstDedup [x] = [x] := rfl
  rw [h1]
  unfold jsKeyOrder
  by_cases hk : isArrayIndexKey x
  · simp [hk, sortAsc, insertAsc]
  · simp [hk, sortAsc]

theorem mergeField_singleton_of_ne {f : FieldName} {bd : BillData}
    (hne : bd.get f ≠ "") (htr : jsTrim (bd.get f) ≠ "") :
    mergeField f [bd] = bd.get f := by
  have hp : jsTruthyNonBlank (bd.get f) = true := by
    unfold jsTruthyNonBlank
    simp [hne, htr]
  have hfil : ([bd].map (fun b => b.get f)).filter jsTruthyNonBlank = [bd.get f] := by
    simp [hp]
  rw [mergeField_cons hfil, jsKeyOrder_singleton]
  have hc : List.count (bd.get f) [bd.get f] = 1 := by simp
  simp [mergeLoop, hc]

/-- C3: merging a single pass yields exactly the fields extracted from
its text, with post-merge confidence 1 on every non-empty field and 0 on
every field left empty. -/
theorem c3_single_pass_merge (r : OCRResult) :
    (mergeScanResults [r]).billData = extractBillData r.text ∧
    ∀ f : FieldName, ((mergeScanResults [r]).fieldConf f).toRat =
      (if (extractBillData r.text).get f = "" then 0 else 1) := by
  have hget : ∀ f, (mergeScanResults [r]).billData.get f =
      (extractBillData r.text).get f := by
    intro f
    rw [mergeScanResults_billData_get]
    show mergeField f [extractBillData r.text] = (extractBillData r.text).get f
    by_cases hv : (extractBillData r.text).get f = ""
    · rw [hv]
      apply mergeField_nil
      simp [jsTruthyNonBlank, hv]
    · exact mergeField_singleton_of_ne hv (extract_blank r.text f hv)
  refine ⟨?_, ?_⟩
  · have h1 := hget .billNo
    have h2 := hget .date
    have h3 := hget .customer
    have h4 := hget .gst
    have h5 := hget .total
    cases hbd : (mergeScanResults [r]).billData with
    | mk a1 a2 a3 a4 a5 =>
      cases hed : extractBillData r.text with
      | mk b1 b2 b3 b4 b5 =>
        rw [hbd, hed] at h1 h2 h3 h4 h5
        simp only [BillData.get] at h1 h2 h3 h4 h5
        rw [h1, h2, h3, h4, h5]
  · intro f
    rw [mergeScanResults_fieldConf]
    by_cases hv : (extractBillData r.text).get f = ""
    · have hfil : (([r].map (fun r => extractBillData r.text)).map
          (fun b => b.get f)).filter jsTruthyNonBlank = [] := by
        simp [jsTruthyNonBlank, hv]
      rw [hfil]
      simp [hv, toRat_ofNat]
    · have hone : jsTruthyNonBlank ((extractBillData r.text).get f) = true := by
        rw [jsTruthyNonBlank_extract]
        simpa using hv
      have hfil : (([r].map (fun r => extractBillData r.text)).map
          (fun b => b.get f)).filter jsTruthyNonBlank =
          [(extractBillData r.text).get f] := by
        simp [hone]
      rw [hfil, hget f]
      simp only [List.length_cons, List.length_nil, List.filter_cons, beq_self_eq_true,
        if_true, List.filter_nil, hv]
      norm_num [toRat_divNat, toRat_ofNat]

theorem fieldConf_den_pos (results : List OCRResult) (f : FieldName) :
    0 < ((mergeScanResults results).fieldConf f).den := by
  rw [mergeScanResults_fieldConf]
  split
  · norm_num [Frac.ofNat]
  · rename_i hlen
    have hne : (((results.map (fun r => extractBillData r.text)).map
        (fun b => b.get f)).filter jsTruthyNonBlank).length ≠ 0 := by
      simpa using hlen
    unfold Frac.divNat Frac.ofNat
    simpa using Nat.pos_of_ne_zero hne

/-- C4: the post-merge confidence of a field is the number of passes
agreeing with the winning value divided by the number of passes with a
non-empty value for that field, and 0 (not undefined) when every pass
left it empty; the overall confidence is the mean of the five per-field
confidences; in particular totals "100","100","200" merge to "100" with
confidence 2/3. -/
theorem c4_merge_confidence_formula :
    (∀ (results : List OCRResult) (f : FieldName),
      ((mergeScanResults results).fieldConf f).toRat =
        (if ((results.map (fun r => (extractBillData r.text).get f)).filter
            (fun v => v != "")).length = 0 then 0
         else
          (((results.map (fun r => (extractBillData r.text).get f)).count
              ((mergeScanResults results).billData.get f) : ℕ) : ℚ) /
            (((results.map (fun r => (extractBillData r.text).get f)).filter
              (fun v => v != "")).length : ℚ))) ∧
    (∀ results : List OCRResult,
      (mergeScanResults results).overallConfidence.toRat =
        (((mergeScanResults results).fieldConf .billNo).toRat +
         ((mergeScanResults results).fieldConf .date).toRat +
         ((mergeScanResults results).fieldConf .customer).toRat +
         ((mergeScanResults results).fieldConf .gst).toRat +
         ((mergeScanResults results).fieldConf .total).toRat) / 5) ∧
    ((mergeScanResults
        [⟨"Total: 100", ⟨95, 1⟩, []⟩, ⟨"Total: 100", ⟨95, 1⟩, []⟩,
         ⟨"Total: 200", ⟨95, 1⟩, []⟩]).billData.total = "100" ∧
      ((mergeScanResults
        [⟨"Total: 100", ⟨95, 1⟩, []⟩, ⟨"Total: 100", ⟨95, 1⟩, []⟩,
         ⟨"Total: 200", ⟨95, 1⟩, []⟩]).fieldConf .total).toRat = 2 / 3) := by
  refine ⟨?_, ?_, ?_, ?_⟩
  · intro results f
    rw [mergeScanResults_fieldConf]
    have hmm2 : (results.map (fun r => extractBillData r.text)).map (fun b => b.get f) =
        results.map (fun r => (extractBillData r.text).get f) := by
      rw [List.map_map]
      rfl
    have hfilcong : (results.map (fun r => (extractBillData r.text).get f)).filter
        jsTruthyNonBlank =
        (results.map (fun r => (extractBillData r.text).get f)).filter
          (fun v => v != "") := by
      apply List.filter_congr
      intro x hx
      rcases List.mem_map.mp hx with ⟨r', _, rfl⟩
      exact jsTruthyNonBlank_extract r'.text f
    rw [hmm2, hfilcong]
    by_cases hlen : ((results.map (fun r => (extractBillData r.text).get f)).filter
        (fun v => v != "")).length = 0
    · have hb : ((((results.map (fun r => (extractBillData r.text).get f)).filter
          (fun v => v != "")).length == 0) = true) := by simpa using hlen
      rw [if_pos hb, if_pos hlen]
      simp [toRat_ofNat]
    · have hb : ((((results.map (fun r => (extractBillData r.text).get f)).filter
          (fun v => v != "")).length == 0) = false) := by simpa using hlen
      rw [if_neg (by simp [hb]), if_neg hlen]
      rw [toRat_divNat, toRat_ofNat]
      congr 1
      norm_cast
      rw [← List.countP_eq_length_filter, ← List.count_eq_countP]
      apply List.count_filter
      have hne' : (results.map (fun r => (extractBillData r.text).get f)).filter
          (fun v => v != "") ≠ [] := fun hni => hlen (by rw [hni]; rfl)
      obtain ⟨v0, vs, hcv⟩ :
          ∃ v0 vs, ((results.map (fun r => extractBillData r.text)).map
            (fun b => b.get f)).filter jsTruthyNonBlank = v0 :: vs := by
        rw [hmm2, hfilcong]
        cases hc : (results.map (fun r => (extractBillData r.text).get f)).filter
            (fun v => v != "") with
        | nil => exact absurd hc hne'
        | cons v0 vs => exact ⟨v0, vs, rfl⟩
      have hmem : (mergeScanResults results).billData.get f ∈ v0 :: vs := by
        rw [mergeScanResults_billData_get]
        exact mergeField_mem hcv
      have hmem2 : (mergeScanResults results).billData.get f ∈
          ((results.map (fun r => extractBillData r.text)).map
            (fun b => b.get f)).filter jsTruthyNonBlank := by
        rw [hcv]
        exact hmem
      have hjt := (List.mem_filter.mp hmem2).2
      unfold jsTruthyNonBlank at hjt
      exact (Bool.and_eq_true _ _ |>.mp hjt).1
  · intro results
    rw [mergeScanResults_overall, toRat_divNat, toRat_sumList _ (by
      intro x hx
      simp only [List.mem_cons, List.not_mem_nil, or_false] at hx
      rcases hx with rfl | rfl | rfl | rfl | rfl <;> exact fieldConf_den_pos results _)]
    simp only [List.map_cons, List.map_nil, List.sum_cons, List.sum_nil]
    norm_num
    ring_nf
  · decide
  · have hc : (mergeScanResults
        [⟨"Total: 100", ⟨95, 1⟩, []⟩, ⟨"Total: 100", ⟨95, 1⟩, []⟩,
         ⟨"Total: 200", ⟨95, 1⟩, []⟩]).fieldConf .total = ⟨2, 3⟩ := by decide
    rw [hc]
    norm_num [Frac.toRat]

theorem dateLoop_none (rest : List (Option String)) :
    dateLoop (none :: rest) = dateLoop rest := rfl

theorem dateLoop_of_tok {tok : String} {rest : List (Option String)} {p0 p1 p2 : String}
    (hsp : splitSeps tok = [p0, p1, p2]) :
    dateLoop (some tok :: rest) = formatDateParts [p0, p1, p2] := by
  simp only [dateLoop, hsp]
  norm_num

theorem formatDateParts_eq (p0 p1 p2 : String) :
    formatDateParts [p0, p1, p2] =
      (if p0.length = 4 then p0 ++ "-" ++ jsPad2 p1 ++ "-" ++ jsPad2 p2
       else (if p2.length = 2 then "20" ++ p2 else p2) ++ "-" ++ jsPad2 p1 ++ "-" ++
         jsPad2 p0) := by
  unfold formatDateParts
  by_cases h4 : p0.length = 4
  · simp [h4]
  · simp only [h4, if_false]
    rw [if_neg (by simpa using h4)]
    by_cases h2 : p2.length = 2
    · simp [h2]
    · rw [if_neg (by simpa using h2), if_neg h2]

/-- C5: whenever the matched date token splits on `/` or `-` into exactly
three parts, the extracted date is the normalisation of the token: a
4-character first part is read as YYYY-MM-DD, otherwise DD-MM-YYYY with a
2-character year prefixed by "20", and month and day zero-padded to two
digits (e.g. "Date: 25/12/2024" gives "2024-12-25" and "2024-1-5" gives
"2024-01-05"). -/
theorem c5_date_normalization :
    ∀ (t tok p0 p1 p2 : String),
      matchedDateToken t = some tok →
      splitSeps tok = [p0, p1, p2] →
      (extractBillData t).date =
        (if p0.length = 4 then p0 ++ "-" ++ jsPad2 p1 ++ "-" ++ jsPad2 p2
         else (if p2.length = 2 then "20" ++ p2 else p2) ++ "-" ++ jsPad2 p1 ++ "-" ++
           jsPad2 p0) := by
  intro t tok p0 p1 p2 hmt hsp
  show extractDate t = _
  unfold extractDate
  unfold matchedDateToken at hmt
  cases h1 : firstMatch dateP1At t.data with
  | some tk =>
    rw [h1] at hmt
    simp only [firstSomeOpt] at hmt
    rw [Option.some_inj] at hmt
    subst hmt
    rw [dateLoop_of_tok hsp, formatDateParts_eq]
  | none =>
    rw [h1] at hmt
    cases h2 : firstMatch dateCoreAt t.data with
    | some tk =>
      rw [h2] at hmt
      simp only [firstSomeOpt] at hmt
      rw [Option.some_inj] at hmt
      subst hmt
      rw [dateLoop_none, dateLoop_of_tok hsp, formatDateParts_eq]
    | none =>
      rw [h2] at hmt
      cases h3 : firstMatch date4At t.data with
      | some tk =>
        rw [h3] at hmt
        simp only [firstSomeOpt] at hmt
        rw [Option.some_inj] at hmt
        subst hmt
        rw [dateLoop_none, dateLoop_none, dateLoop_of_tok hsp, formatDateParts_eq]
      | none =>
        rw [h3] at hmt
        simp [firstSomeOpt] at hmt

/-- Witness for C5 at the two specification examples. -/
theorem c5_date_normalization_witness :
    matchedDateToken "Date: 25/12/2024" = some "25/12/2024" ∧
    splitSeps "25/12/2024" = ["25", "12", "2024"] ∧
    (extractBillData "Date: 25/12/2024").date =
      (if ("25" : String).length = 4 then "25" ++ "-" ++ jsPad2 "12" ++ "-" ++ jsPad2 "2024"
       else (if ("2024" : String).length = 2 then "20" ++ "2024" else "2024") ++ "-" ++
         jsPad2 "12" ++ "-" ++ jsPad2 "25") ∧
    matchedDateToken "2024-1-5" = some "2024-1-5" ∧
    (extractBillData "2024-1-5").date =
      (if ("2024" : String).length = 4 then "2024" ++ "-" ++ jsPad2 "1" ++ "-" ++ jsPad2 "5"
       else (if ("5" : String).length = 2 then "20" ++ "5" else "5") ++ "-" ++
         jsPad2 "1" ++ "-" ++ jsPad2 "2024") :=
  ⟨by decide, by decide,
   c5_date_normalization "Date: 25/12/2024" "25/12/2024" "25" "12" "2024"
     (by decide) (by decide),
   by decide,
   c5_date_normalization "2024-1-5" "2024-1-5" "2024" "1" "5" (by decide) (by decide)⟩

/-- C6 (amended): when a Total/Grand Total/Amount Payable label pattern
matches and its comma-stripped capture is non-empty, that is the total
(decimal point preserved); when no label matches — or the stripped
capture is empty, which is possible when the capture consists only of
commas — the total is the decimal string of the maximum parsed numeric
token after stripping currency symbols and commas, and stays empty if no
token parses. -/
theorem c6_total_extraction :
    (∀ t : String,
      (extractBillData t).total =
        (match totalLabelCapture t with
         | some cap =>
           if stripCommas cap = "" then (fallbackTotal t).getD (stripCommas cap)
           else stripCommas cap
         | none => (fallbackTotal t).getD "")) ∧
    (∀ (t : String) (v : ScaledNum) (vs : List ScaledNum),
      (globalNumMatches t.data).filterMap
        (fun n => parseFloatTok (stripCurrencyCommas n)) = v :: vs →
      fallbackTotal t = some (scaledToString (maxScaled v vs))) ∧
    (∀ t : String,
      (globalNumMatches t.data).filterMap
        (fun n => parseFloatTok (stripCurrencyCommas n)) = [] →
      fallbackTotal t = none) ∧
    (extractBillData "Total 1,200.50").total = "1200.50" ∧
    (extractBillData "Qty 50 Rate 1999 Items 3").total = "1999" := by
  refine ⟨?_, ?_, ?_, by decide, by decide⟩
  · intro t
    show extractTotal t = _
    cases hlc : totalLabelCapture t with
    | some cap =>
      rw [extractTotal_of_label hlc]
    | none =>
      rw [extractTotal_of_nolabel hlc]
  · intro t v vs h
    simp only [fallbackTotal, h]
  · intro t h
    simp only [fallbackTotal, h]

/-- C6 counterexample: in "Total , 7" the labelled total pattern matches
with capture ",", whose comma-stripped value is empty; the claim then
requires total = "", but the code falls back to the largest numeric token
and yields "7". -/
theorem c6_counterexample :
    totalLabelCapture "Total , 7" = some [','] ∧
    stripCommas [','] = "" ∧
    (extractBillData "Total , 7").total = "7" :=
  ⟨by decide, by decide, by decide⟩

/-- Witness for C6: the fallback on "Qty 50 Rate 1999 Items 3" prints the
maximum of the parsed tokens 50, 1999 and 3. -/
theorem c6_total_extraction_witness :
    fallbackTotal "Qty 50 Rate 1999 Items 3" =
      some (scaledToString (maxScaled ⟨50, 0⟩ [⟨1999, 0⟩, ⟨3, 0⟩])) :=
  c6_total_extraction.2.1 "Qty 50 Rate 1999 Items 3" ⟨50, 0⟩ [⟨1999, 0⟩, ⟨3, 0⟩] (by decide)
